import Mathlib

/-!
Verification of the query-construction and denormalization layer of a
Pokemon data server.  The definitions below are shallow embeddings of the
TypeScript sources under `packages/pokemon-mcp-server/src` (notably
`database/pokemonQueries.ts`, `database/searchQueries.ts`,
`database/statsQueries.ts` and the tools `getPokemon.ts`,
`strongestPokemon.ts`).  JavaScript `Map` objects are modelled as
insertion-ordered association lists, JavaScript truthiness of optional
fields is modelled explicitly, machine numbers are naturals, and the
SQLite queries executed by `better-sqlite3` are modelled as list
computations over an explicit database state.
-/

set_option maxHeartbeats 1000000

/-- ASCII lower-casing of one character, as performed by SQLite's `LOWER`
on the ASCII range (the only comparisons the code performs are on ASCII
names).  Letters `A`-`Z` map to `a`-`z`; every other character is kept. -/
def lowerChar (c : Char) : Char :=
  match c with
  | 'A' => 'a' | 'B' => 'b' | 'C' => 'c' | 'D' => 'd' | 'E' => 'e'
  | 'F' => 'f' | 'G' => 'g' | 'H' => 'h' | 'I' => 'i' | 'J' => 'j'
  | 'K' => 'k' | 'L' => 'l' | 'M' => 'm' | 'N' => 'n' | 'O' => 'o'
  | 'P' => 'p' | 'Q' => 'q' | 'R' => 'r' | 'S' => 's' | 'T' => 't'
  | 'U' => 'u' | 'V' => 'v' | 'W' => 'w' | 'X' => 'x' | 'Y' => 'y'
  | 'Z' => 'z' | c => c

/-- String lower-casing: `LOWER(?)` in the SQL text, applied characterwise. -/
def lowerStr (s : String) : String := ⟨s.data.map lowerChar⟩

/-- Test used by `BaseQueryModule.isNumericId`: the regular expression
`^\d+$`, true iff the string is nonempty and consists only of decimal
digits. -/
def isNumericId (s : String) : Bool :=
  !s.data.isEmpty && s.data.all Char.isDigit

/-- Decimal value of a digit list (most significant first). -/
def natOfDigits (ds : List Char) : Nat :=
  ds.foldl (fun acc c => acc * 10 + (c.toNat - 48)) 0

/-- Numeric value of an all-digit identifier, as produced by
`parseInt` on a string matching `^\d+$`. -/
def digitsToNat (s : String) : Nat := natOfDigits s.data

/-- Whitespace characters SQLite's text-to-number conversion skips at
either end of a literal (space, tab, newline, vertical tab, form feed,
carriage return). -/
def isSqliteSpace (c : Char) : Bool :=
  (c == ' ') || (c == '\t') || (c == '\n') || (c == '\x0b') ||
  (c == '\x0c') || (c == '\r')

/-- Optional leading sign of a numeric literal: the sign factor and the
remaining characters. -/
def sqliteSign (cs : List Char) : Int × List Char :=
  match cs with
  | c :: rest =>
      if c = '+' then (1, rest)
      else if c = '-' then (-1, rest)
      else (1, c :: rest)
  | [] => (1, [])

/-- Optional exponent part of a numeric literal: `some (e, rest)` when
there is no exponent marker (`e = 0`) or a well-formed
`e`/`E`-sign-digits exponent, `none` when a marker is present but not
followed by digits. -/
def sqliteExp : List Char → Option (Int × List Char)
  | c :: rest =>
      if c = 'e' ∨ c = 'E' then
        if ((sqliteSign rest).2.takeWhile Char.isDigit).isEmpty then none
        else some ((sqliteSign rest).1 *
            (natOfDigits ((sqliteSign rest).2.takeWhile Char.isDigit) : Int),
          (sqliteSign rest).2.dropWhile Char.isDigit)
      else some (0, c :: rest)
  | [] => some (0, [])

/-- Exact value of a parsed numeric literal
`sgn (intDs . fracDs) 10^e`, represented as an unreduced exact fraction
numerator/denominator with a power-of-ten denominator (SQLite compares
INTEGER and REAL values exactly; the double-precision rounding of
extreme literals is out of scope). -/
def affinityVal (sgn : Int) (intDs fracDs : List Char) (e : Int) :
    Int × Nat :=
  let M : Int :=
    sgn * ((natOfDigits intDs * 10 ^ fracDs.length + natOfDigits fracDs :
      Nat) : Int)
  if 0 ≤ e then (M * 10 ^ e.toNat, 10 ^ fracDs.length)
  else (M, 10 ^ fracDs.length * 10 ^ (-e).toNat)

/-- Tail of the literal after the mantissa: requires at least one
mantissa digit, then an optional well-formed exponent, then nothing but
trailing whitespace. -/
def sqliteNumParseRest (sgn : Int) (intDs fracDs cs : List Char) :
    Option (Int × Nat) :=
  if intDs.isEmpty && fracDs.isEmpty then none
  else
    match sqliteExp cs with
    | none => none
    | some (e, rest) =>
        if (rest.dropWhile isSqliteSpace).isEmpty then
          some (affinityVal sgn intDs fracDs e)
        else none

/-- Optional fraction part following the integer digits. -/
def sqliteNumParseMantissa (sgn : Int) (intDs cs : List Char) :
    Option (Int × Nat) :=
  match cs with
  | c :: rest =>
      if c = '.' then
        sqliteNumParseRest sgn intDs (rest.takeWhile Char.isDigit)
          (rest.dropWhile Char.isDigit)
      else sqliteNumParseRest sgn intDs [] (c :: rest)
  | [] => sqliteNumParseRest sgn intDs [] []

/-- Numeric affinity conversion SQLite applies to a text operand
compared against an INTEGER-affinity column: a well-formed numeric
literal (optional whitespace, optional sign, digits with optional
fraction, optional exponent, optional whitespace) converts to its exact
numeric value, returned as an exact numerator/denominator pair with a
positive power-of-ten denominator; any other text does not convert and
never equals an integer. -/
def sqliteNumAffinity (s : String) : Option (Int × Nat) :=
  sqliteNumParseMantissa (sqliteSign (s.data.dropWhile isSqliteSpace)).1
    (((sqliteSign (s.data.dropWhile isSqliteSpace)).2).takeWhile Char.isDigit)
    (((sqliteSign (s.data.dropWhile isSqliteSpace)).2).dropWhile Char.isDigit)

/-- Comparison of the integer column `p.id` with a bound text parameter,
`p.id = ?` in `pokemonComplete`: the text converts under numeric
affinity and compares numerically when it is a well-formed literal
(`"25"`, `"+25"`, `"25.0"`, `" 25 "` all match id 25 since `N/D = i` iff
`N = i·D`), and never matches otherwise. -/
def sqliteIdMatches (i : Nat) (s : String) : Bool :=
  match sqliteNumAffinity s with
  | some (n, d) => n == (i : Int) * (d : Int)
  | none => false

/-- Comma-joining performed by `GROUP_CONCAT(t.name)`. -/
def commaJoin (names : List String) : String := String.intercalate "," names

/-! ## Database state

The fixed relational schema read by this layer (tables `pokemon`,
`stats`, `types`, `pokemon_types`, `abilities`, `pokemon_abilities`). -/

/-- Row of the `pokemon` table. -/
structure PokemonRow where
  id : Nat
  name : String
  height : Nat
  weight : Nat
  base_experience : Nat
  generation : Nat
  species_url : String
  sprite_url : String
deriving DecidableEq

/-- Row of the `stats` table. -/
structure StatTableRow where
  pokemon_id : Nat
  stat_name : String
  base_stat : Nat
  effort : Nat
deriving DecidableEq

/-- Row of the `types` table. -/
structure TypeTableRow where
  id : Nat
  name : String
deriving DecidableEq

/-- Row of the `pokemon_types` join table. -/
structure PokemonTypeRow where
  pokemon_id : Nat
  type_id : Nat
  slot : Nat
deriving DecidableEq

/-- Row of the `abilities` table. -/
structure AbilityTableRow where
  id : Nat
  name : String
deriving DecidableEq

/-- Row of the `pokemon_abilities` join table. -/
structure PokemonAbilityRow where
  pokemon_id : Nat
  ability_id : Nat
  is_hidden : Bool
  slot : Nat
deriving DecidableEq

/-- The embedded relational store. -/
structure Db where
  pokemon : List PokemonRow := []
  stats : List StatTableRow := []
  types : List TypeTableRow := []
  pokemon_types : List PokemonTypeRow := []
  abilities : List AbilityTableRow := []
  pokemon_abilities : List PokemonAbilityRow := []
deriving DecidableEq

/-! ## PokemonQueries: identifier lookups (`pokemonQueries.ts`) -/

/-- Statement `pokemonById`: `SELECT * FROM pokemon WHERE id = ?`, with
`.get` returning the first matching row or `undefined`. -/
def getPokemonById (db : Db) (i : Nat) : Option PokemonRow :=
  db.pokemon.find? (fun p => p.id == i)

/-- Statement `pokemonByName`:
`SELECT * FROM pokemon WHERE LOWER(name) = LOWER(?)`. -/
def getPokemonByName (db : Db) (n : String) : Option PokemonRow :=
  db.pokemon.find? (fun p => lowerStr p.name == lowerStr n)

/-- Method `PokemonQueries.getPokemon`: dispatch on `isNumericId`. -/
def getPokemon (db : Db) (identifier : String) : Option PokemonRow :=
  if isNumericId identifier then getPokemonById db (digitsToNat identifier)
  else getPokemonByName db identifier

/-- WHERE predicate of the `pokemonComplete` statement:
`p.id = ? OR LOWER(p.name) = LOWER(?)`, with the identifier bound to both
placeholders unconditionally. -/
def completeWhere (identifier : String) (p : PokemonRow) : Bool :=
  sqliteIdMatches p.id identifier || (lowerStr p.name == lowerStr identifier)

/-- Set of entities selected by `getPokemonComplete`'s filter predicate. -/
def completeSelects (db : Db) (identifier : String) : List PokemonRow :=
  db.pokemon.filter (completeWhere identifier)

/-! ## Denormalized complete rows and the JS `Map` model

`CompleteRow` mirrors the interface of the same name: entity scalars plus
nullable columns from the three left joins. -/

/-- Denormalized row of the `pokemonComplete` join; `none` marks a SQL
NULL (a left-join miss). -/
structure CompleteRow where
  id : Nat := 0
  name : String := ""
  height : Nat := 0
  weight : Nat := 0
  base_experience : Nat := 0
  generation : Nat := 0
  species_url : String := ""
  sprite_url : String := ""
  stat_name : Option String := none
  base_stat : Option Nat := none
  effort : Option Nat := none
  type_name : Option String := none
  type_slot : Option Nat := none
  ability_name : Option String := none
  is_hidden : Option Bool := none
  ability_slot : Option Nat := none
deriving DecidableEq

/-- Output shape of the stat extractors (`StatRow` / `Stat`). -/
structure StatRow where
  stat_name : String
  base_stat : Nat
  effort : Nat
deriving DecidableEq

/-- Output shape of `PokemonDataExtractor.extractTypes` (`TypeRow`). -/
structure TypeOut where
  name : String
  slot : Nat
deriving DecidableEq

/-- Output shape of `PokemonDataExtractor.extractAbilities`
(`AbilityRow`). -/
structure AbilityOut where
  name : String
  is_hidden : Bool
  slot : Nat
deriving DecidableEq

/-- Output shape of `GetPokemonTool.extractTypes` (`Type`: name only). -/
structure ToolTypeOut where
  name : String
deriving DecidableEq

/-- Output shape of `GetPokemonTool.extractAbilities` (`Ability`). -/
structure ToolAbilityOut where
  name : String
  is_hidden : Bool
deriving DecidableEq

/-- Left-biased choice on options (`Option.orElse` with strict
arguments), used to phrase first/last-occurrence lookups. -/
def optOr {α : Type} : Option α → Option α → Option α
  | some a, _ => some a
  | none, b => b

section AssocMap

variable {κ V Row : Type} [DecidableEq κ]

/-- Lookup in an insertion-ordered association list (JS `Map.get`). -/
def lookupKey (k : κ) : List (κ × V) → Option V
  | [] => none
  | (k', v) :: rest => if k' = k then some v else lookupKey k rest

/-- Key-presence test (JS `Map.has`). -/
def hasKey (k : κ) (m : List (κ × V)) : Bool := (lookupKey k m).isSome

/-- Guarded insertion `if (!map.has(k)) map.set(k, v)`: the first value
bound to a key wins, new keys append in insertion order. -/
def setIfAbsent (k : κ) (v : V) (m : List (κ × V)) : List (κ × V) :=
  if hasKey k m then m else m ++ [(k, v)]

/-- Unconditional `map.set(k, v)`: the last value bound to a key wins;
an existing key keeps its insertion position, a new key appends. -/
def setReplace (k : κ) (v : V) : List (κ × V) → List (κ × V)
  | [] => [(k, v)]
  | (k', v') :: rest =>
      if k' = k then (k', v) :: rest else (k', v') :: setReplace k v rest

variable (ent : Row → Option (κ × V))

/-- Key/value pair a single row contributes for key `s`, if any. -/
def stepValue (r : Row) (s : κ) : Option V :=
  match ent r with
  | some (k, v) => if k = s then some v else none
  | none => none

/-- Value of the first row that binds key `s` (the occurrence a
first-wins `Map` retains). -/
def firstValue : List Row → κ → Option V
  | [], _ => none
  | r :: rest, s => optOr (stepValue ent r s) (firstValue rest s)

/-- Value of the last row that binds key `s` (the occurrence an
unconditionally-overwriting `Map` retains). -/
def lastValue : List Row → κ → Option V
  | [], _ => none
  | r :: rest, s => optOr (lastValue rest s) (stepValue ent r s)

/-- Fold of `rows.forEach` with the guarded (first-wins) insertion. -/
def foldFirst : List (κ × V) → List Row → List (κ × V)
  | acc, [] => acc
  | acc, r :: rest =>
      foldFirst (match ent r with
                 | some (k, v) => setIfAbsent k v acc
                 | none => acc) rest

/-- Fold of `rows.forEach` with the unconditional (last-wins) insertion. -/
def foldLast : List (κ × V) → List Row → List (κ × V)
  | acc, [] => acc
  | acc, r :: rest =>
      foldLast (match ent r with
                | some (k, v) => setReplace k v acc
                | none => acc) rest

end AssocMap

/-! ## The four reconstruction functions of `pokemonQueries.ts` and the
two of `getPokemon.ts` -/

/-- Contribution of one row to the stats map of
`PokemonDataExtractor.extractStats`: requires `row.stat_name` truthy
(non-null, nonempty) and `base_stat`, `effort` present. -/
def statEntry (r : CompleteRow) : Option (String × StatRow) :=
  match r.stat_name, r.base_stat, r.effort with
  | some n, some b, some e => if n = "" then none else some (n, ⟨n, b, e⟩)
  | _, _, _ => none

/-- Fixed canonical attribute order used by every extractor. -/
def statOrder : List String :=
  ["hp", "attack", "defense", "special-attack", "special-defense", "speed"]

namespace PokemonDataExtractor

/-- Method `PokemonDataExtractor.extractStats`: first-wins map keyed by
stat name, then emission in `statOrder`, dropping unobserved names. -/
def extractStats (rows : List CompleteRow) : List StatRow :=
  let statsMap := foldFirst statEntry [] rows
  statOrder.filterMap (fun n => lookupKey n statsMap)

/-- Contribution of one row to the types map: requires `row.type_name`
truthy and `row.type_slot` present (`!== undefined`). -/
def typeEntry (r : CompleteRow) : Option (Nat × TypeOut) :=
  match r.type_name, r.type_slot with
  | some n, some s => if n = "" then none else some (s, ⟨n, s⟩)
  | _, _ => none

/-- Method `PokemonDataExtractor.extractTypes`: first-wins map keyed by
slot, values sorted ascending by their `slot` field. -/
def extractTypes (rows : List CompleteRow) : List TypeOut :=
  let typesMap := foldFirst typeEntry [] rows
  List.insertionSort (fun a b : TypeOut => a.slot ≤ b.slot)
    (typesMap.map Prod.snd)

/-- Contribution of one row to the abilities map: requires
`row.ability_name` truthy and `row.ability_slot` present; the stored flag
is `Boolean(row.is_hidden)` (a missing flag coerces to `false`). -/
def abilityEntry (r : CompleteRow) : Option (Nat × AbilityOut) :=
  match r.ability_name, r.ability_slot with
  | some n, some s =>
      if n = "" then none else some (s, ⟨n, r.is_hidden.getD false, s⟩)
  | _, _ => none

/-- Method `PokemonDataExtractor.extractAbilities`: first-wins map keyed
by slot, values sorted ascending by their `slot` field. -/
def extractAbilities (rows : List CompleteRow) : List AbilityOut :=
  let abilitiesMap := foldFirst abilityEntry [] rows
  List.insertionSort (fun a b : AbilityOut => a.slot ≤ b.slot)
    (abilitiesMap.map Prod.snd)

end PokemonDataExtractor

namespace GetPokemonTool

/-- Contribution of one row to the stats map of
`GetPokemonTool.extractStats` (same guards, `!== null` on the numeric
columns). -/
def statEntry (r : CompleteRow) : Option (String × StatRow) :=
  match r.stat_name, r.base_stat, r.effort with
  | some n, some b, some e => if n = "" then none else some (n, ⟨n, b, e⟩)
  | _, _, _ => none

/-- Method `GetPokemonTool.extractStats`: identical first-wins discipline
and canonical emission order. -/
def extractStats (rows : List CompleteRow) : List StatRow :=
  let statsMap := foldFirst statEntry [] rows
  statOrder.filterMap (fun n => lookupKey n statsMap)

/-- Contribution of one row to the types map of
`GetPokemonTool.extractTypes`: requires `row.type_name` truthy and
`row.type_slot !== null`; the stored value holds the name only. -/
def typeEntry (r : CompleteRow) : Option (Nat × ToolTypeOut) :=
  match r.type_name, r.type_slot with
  | some n, some s => if n = "" then none else some (s, ⟨n⟩)
  | _, _ => none

/-- Entries retained by `GetPokemonTool.extractTypes` before emission:
an unconditional `typesMap.set(slot, value)` (last value wins), then
`Array.from(map.entries()).sort(by slot)`. -/
def typeEntries (rows : List CompleteRow) : List (Nat × ToolTypeOut) :=
  List.insertionSort (fun a b : Nat × ToolTypeOut => a.1 ≤ b.1)
    (foldLast typeEntry [] rows)

/-- Method `GetPokemonTool.extractTypes`: the sorted entries' values. -/
def extractTypes (rows : List CompleteRow) : List ToolTypeOut :=
  (typeEntries rows).map Prod.snd

/-- Contribution of one row to the abilities map of
`GetPokemonTool.extractAbilities`: requires name truthy and both
`is_hidden` and `ability_slot` non-null. -/
def abilityEntry (r : CompleteRow) : Option (Nat × ToolAbilityOut) :=
  match r.ability_name, r.is_hidden, r.ability_slot with
  | some n, some h, some s => if n = "" then none else some (s, ⟨n, h⟩)
  | _, _, _ => none

/-- Entries retained by `GetPokemonTool.extractAbilities` (unconditional
`set`, so the last value per slot wins), sorted ascending by slot. -/
def abilityEntries (rows : List CompleteRow) : List (Nat × ToolAbilityOut) :=
  List.insertionSort (fun a b : Nat × ToolAbilityOut => a.1 ≤ b.1)
    (foldLast abilityEntry [] rows)

/-- Method `GetPokemonTool.extractAbilities`: the sorted entries'
values. -/
def extractAbilities (rows : List CompleteRow) : List ToolAbilityOut :=
  (abilityEntries rows).map Prod.snd

end GetPokemonTool

/-! ## SearchQueries (`searchQueries.ts`)

The dynamic search query is embedded in two faithful halves: the shape of
the SQL text built by `buildSearchQuery` (which clause fragments and
placeholders are present) and the parameter list built by
`buildSearchParams`; `execSearch` then evaluates the query binding the
parameters positionally to the placeholders in their textual order, which
is `[minStat, type, generation, limit]` because the minStat sub-aggregate
join is appended to the query text before the WHERE clause. -/

/-- Bound SQL parameter (`string | number`). -/
inductive SqlValue
  | str (s : String)
  | num (n : Nat)
deriving DecidableEq

/-- Search filter (`PokemonSearchFilter`); `none` models an absent
(undefined) field. -/
structure PokemonSearchFilter where
  type : Option String := none
  generation : Option Nat := none
  minStat : Option Nat := none
  limit : Option Nat := none
deriving DecidableEq

/-- JavaScript truthiness of an optional string field (`undefined`,
`null` and `""` are falsy). -/
def truthyStr : Option String → Bool
  | none => false
  | some s => !(s == "")

/-- JavaScript truthiness of an optional numeric field (`undefined`,
`null` and `0` are falsy). -/
def truthyNat : Option Nat → Bool
  | none => false
  | some n => !(n == 0)

/-- Shape of the SQL text produced by `buildSearchQuery`: which optional
fragments (and hence which placeholders) the dynamic query contains.
Placeholder order in the text: the minStat `HAVING total_stats >= ?`
(inside a join appended before the WHERE clause), then the type
`LOWER(t2.name) = LOWER(?)` and generation `p.generation = ?` conditions
of the WHERE clause, then `LIMIT ?`. -/
structure SearchQueryShape where
  hasTypeCond : Bool
  hasGenCond : Bool
  hasMinStatJoin : Bool
deriving DecidableEq

/-- Method `SearchQueries.buildSearchQuery` (the clause structure of the
returned SQL string). -/
def buildSearchQuery (f : PokemonSearchFilter) : SearchQueryShape :=
  ⟨truthyStr f.type, truthyNat f.generation, truthyNat f.minStat⟩

/-- Method `SearchQueries.buildSearchParams`: parameters pushed in the
order type, generation, minStat, then always the limit (defaulted to 20
only when the field is undefined). -/
def buildSearchParams (f : PokemonSearchFilter) : List SqlValue :=
  (if truthyStr f.type then [SqlValue.str (f.type.getD "")] else []) ++
  (if truthyNat f.generation then [SqlValue.num (f.generation.getD 0)]
   else []) ++
  (if truthyNat f.minStat then [SqlValue.num (f.minStat.getD 0)] else []) ++
  [SqlValue.num (f.limit.getD 20)]

/-- Text rendering of a bound value, as SQLite's `LOWER` sees it (a
numeric argument is rendered as its decimal text). -/
def sqlToText : SqlValue → String
  | .str s => s
  | .num n => toString n

/-- Comparison `SUM(base_stat) >= ?` under SQLite semantics: an integer
compares numerically with a numeric binding and is strictly less than any
text binding, so a text binding never satisfies the threshold. -/
def sqliteGeNum (total : Nat) : SqlValue → Bool
  | .num m => m ≤ total
  | .str _ => false

/-- Comparison `p.generation = ?` under SQLite semantics (INTEGER
affinity applied to a text binding, as in `sqliteIdMatches`). -/
def sqliteEqNum (n : Nat) : SqlValue → Bool
  | .num m => n == m
  | .str s =>
      match sqliteNumAffinity s with
      | some (num, den) => num == (n : Int) * (den : Int)
      | none => false

/-- Numeric reading of the `LIMIT ?` binding. -/
def sqlLimit : SqlValue → Nat
  | .num n => n
  | .str s => if isNumericId s then digitsToNat s else 0

/-- Tag names of one entity in join order, the rows the display join
`JOIN pokemon_types pt ... JOIN types t` contributes and the list
`GROUP_CONCAT` aggregates (aggregation order modelled as join order). -/
def typeNamesOf (db : Db) (pid : Nat) : List String :=
  (db.pokemon_types.filter (fun pt => pt.pokemon_id == pid)).flatMap
    (fun pt => (db.types.filter (fun t => t.id == pt.type_id)).map
      (fun t => t.name))

/-- Correlated EXISTS subquery of the type filter:
`EXISTS (SELECT 1 FROM pokemon_types pt2 JOIN types t2 ... WHERE
pt2.pokemon_id = p.id AND LOWER(t2.name) = LOWER(?))`. -/
def existsTypeLower (db : Db) (pid : Nat) (v : SqlValue) : Bool :=
  db.pokemon_types.any (fun pt =>
    pt.pokemon_id == pid &&
    db.types.any (fun t =>
      t.id == pt.type_id && (lowerStr t.name == lowerStr (sqlToText v))))

/-- Aggregate `SUM(base_stat)` of one entity's attribute rows. -/
def sumStats (db : Db) (pid : Nat) : Nat :=
  ((db.stats.filter (fun s => s.pokemon_id == pid)).map
    (fun s => s.base_stat)).sum

/-- Presence of at least one `stats` row for the entity (the grouped
sub-aggregate only produces a group for such entities). -/
def hasStatsRow (db : Db) (pid : Nat) : Bool :=
  db.stats.any (fun s => s.pokemon_id == pid)

/-- Result row of the search (`SearchResultRow`). -/
structure SearchResultRow where
  id : Nat
  name : String
  generation : Nat
  types : String
deriving DecidableEq

/-- Evaluation of the dynamic search statement against the store: the
bound parameters are consumed positionally in the placeholders' textual
order (minStat join, type condition, generation condition, limit).  Each
surviving entity (the inner display join requires at least one tag row)
produces one group row; groups are ordered ascending by id and cut to the
limit.  Entities are assumed distinct rows of the `pokemon` table. -/
def execSearch (db : Db) (q : SearchQueryShape) (params : List SqlValue) :
    List SearchResultRow :=
  let minV := if q.hasMinStatJoin then params.head? else none
  let rest1 := if q.hasMinStatJoin then params.tail else params
  let typeV := if q.hasTypeCond then rest1.head? else none
  let rest2 := if q.hasTypeCond then rest1.tail else rest1
  let genV := if q.hasGenCond then rest2.head? else none
  let rest3 := if q.hasGenCond then rest2.tail else rest2
  let limN := match rest3.head? with
              | some v => sqlLimit v
              | none => 0
  let keep := fun (p : PokemonRow) =>
    (match minV with
     | some v => hasStatsRow db p.id && sqliteGeNum (sumStats db p.id) v
     | none => true) &&
    (match typeV with
     | some v => existsTypeLower db p.id v
     | none => true) &&
    (match genV with
     | some v => sqliteEqNum p.generation v
     | none => true) &&
    !(typeNamesOf db p.id).isEmpty
  (((List.insertionSort (fun a b : PokemonRow => a.id ≤ b.id) db.pokemon).filter
      keep).map
    (fun p => SearchResultRow.mk p.id p.name p.generation
      (commaJoin (typeNamesOf db p.id)))).take limN

/-- Method `SearchQueries.searchPokemon`: build the query and the
parameter array, then execute. -/
def searchPokemon (db : Db) (f : PokemonSearchFilter) : List SearchResultRow :=
  execSearch db (buildSearchQuery f) (buildSearchParams f)

/-- Validation result of `validateSearchFilter`. -/
structure ValidationResult where
  valid : Bool
  errors : List String
deriving DecidableEq

/-- Method `SearchQueries.validateSearchFilter`: each range check is
guarded by the field's truthiness, so falsy values (absent or `0`) are
never range-checked.  Numbers are modelled as naturals, so the
`Number.isInteger` and negativity checks of the source are vacuous. -/
def validateSearchFilter (f : PokemonSearchFilter) : ValidationResult :=
  let errors :=
    (if truthyNat f.generation &&
        (decide (f.generation.getD 0 < 1) || decide (9 < f.generation.getD 0))
     then ["Generation must be an integer between 1 and 9"] else []) ++
    (if truthyNat f.minStat && decide (1000 < f.minStat.getD 0)
     then ["Minimum stat must be an integer between 0 and 1000"] else []) ++
    (if truthyNat f.limit &&
        (decide (f.limit.getD 0 < 1) || decide (100 < f.limit.getD 0))
     then ["Limit must be an integer between 1 and 100"] else [])
  ⟨errors.isEmpty, errors⟩

/-! ## StatsQueries and StrongestPokemonTool (`statsQueries.ts`,
`strongestPokemon.ts`) -/

/-- Replacement `criteria.replace('_', '-')`: JavaScript `replace` with a
string pattern substitutes only the first occurrence. -/
def replaceFirstUnderscoreChars : List Char → List Char
  | [] => []
  | c :: cs => if c = '_' then '-' :: cs else c :: replaceFirstUnderscoreChars cs

/-- String form of the single-separator substitution applied to a metric
token before binding it as a stat name. -/
def replaceFirstUnderscore (s : String) : String :=
  ⟨replaceFirstUnderscoreChars s.data⟩

/-- Ranking criteria (`StatsCriteria` / `StrongestArgs`); the metric
token is kept as a string so that out-of-set tokens are expressible. -/
structure StatsCriteria where
  criteria : String
  type : Option String := none
  generation : Option Nat := none
  limit : Option Nat := none
deriving DecidableEq

/-- Method `StatsQueries.buildStrongestParams`: for a non-total metric
the bound stat name is the token with its first underscore replaced by a
hyphen; then the optional type and generation values; then the limit
(default 10). -/
def buildStrongestParams (c : StatsCriteria) : List SqlValue :=
  (if c.criteria == "total_stats" then []
   else [SqlValue.str (replaceFirstUnderscore c.criteria)]) ++
  (if truthyStr c.type then [SqlValue.str (c.type.getD "")] else []) ++
  (if truthyNat c.generation then [SqlValue.num (c.generation.getD 0)]
   else []) ++
  [SqlValue.num (c.limit.getD 10)]

/-- Result row of the ranking query (`StrongestPokemonRow`). -/
structure StrongestPokemonRow where
  name : String
  id : Nat
  generation : Nat
  stat_value : Nat
deriving DecidableEq

/-- Number of `pokemon_types`-join rows matching the (truthy) type
filter for an entity; with no type filter the query has no such join and
the fan-out factor is 1. -/
def typeJoinCount (db : Db) (pid : Nat) (t : Option String) : Nat :=
  match t with
  | none => 1
  | some tv =>
      ((db.pokemon_types.filter (fun pt => pt.pokemon_id == pid)).flatMap
        (fun pt => (db.types.filter (fun ty =>
          ty.id == pt.type_id &&
          (lowerStr ty.name == lowerStr tv))).map (fun ty => ty.name))).length

/-- Generation condition of the ranking query (absent filter passes). -/
def genOk (p : PokemonRow) (g : Option Nat) : Bool :=
  match g with
  | none => true
  | some gv => p.generation == gv

/-- Type filter retained by the truthiness guard `if (type)`. -/
def strongestActiveType (c : StatsCriteria) : Option String :=
  match c.type with
  | some t => if t == "" then none else some t
  | none => none

/-- Generation filter retained by the truthiness guard
`if (generation)`. -/
def strongestActiveGen (c : StatsCriteria) : Option Nat :=
  match c.generation with
  | some g => if g == 0 then none else some g
  | none => none

/-- Ungrouped evaluation of the ranking query's joins and WHERE clause.
For a non-total metric: one output row per `stats` row whose name equals
the substituted token, repeated per matching type-join row; for
`total_stats`: one grouped row per entity with at least one attribute row
(and, when the type filter is active, at least one matching type row),
its sum inflated by the type-join fan-out. -/
def strongestRows (db : Db) (c : StatsCriteria) : List StrongestPokemonRow :=
  if c.criteria == "total_stats" then
    db.pokemon.flatMap (fun p =>
      if genOk p (strongestActiveGen c) && hasStatsRow db p.id &&
         0 < typeJoinCount db p.id (strongestActiveType c) then
        [StrongestPokemonRow.mk p.name p.id p.generation
          (sumStats db p.id * typeJoinCount db p.id (strongestActiveType c))]
      else [])
  else
    db.pokemon.flatMap (fun p =>
      if genOk p (strongestActiveGen c) then
        (db.stats.filter (fun s =>
          s.pokemon_id == p.id &&
          s.stat_name == replaceFirstUnderscore c.criteria)).flatMap
          (fun s =>
            List.replicate (typeJoinCount db p.id (strongestActiveType c))
              (StrongestPokemonRow.mk p.name p.id p.generation s.base_stat))
      else [])

/-- Evaluation of `StatsQueries.getStrongestPokemon` (its placeholder
order and parameter order coincide, so the query is evaluated directly).
Results are ordered descending by value (ties in unspecified relative
order, modelled by a stable sort) and cut to the limit (default 10). -/
def getStrongestPokemon (db : Db) (c : StatsCriteria) :
    List StrongestPokemonRow :=
  (List.insertionSort
    (fun a b : StrongestPokemonRow => b.stat_value ≤ a.stat_value)
    (strongestRows db c)).take (c.limit.getD 10)

/-- Metric tokens accepted by the `switch` of
`StrongestPokemonTool.execute`. -/
def allowedCriteria : List String :=
  ["total_stats", "attack", "defense", "hp", "speed", "sp_attack",
   "sp_defense"]

/-- Switch of `StrongestPokemonTool.execute` choosing the stat column:
`some true` selects `SUM(s.base_stat)`, `some false` the raw
`s.base_stat`, and `none` marks the default branch that throws before any
SQL text is assembled. -/
def statColumnOf (criteria : String) : Option Bool :=
  if criteria == "total_stats" then some true
  else if criteria == "attack" || criteria == "defense" ||
          criteria == "hp" || criteria == "speed" ||
          criteria == "sp_attack" || criteria == "sp_defense" then some false
  else none

/-- Method `StrongestPokemonTool.execute`: an out-of-set metric throws
`Invalid criteria` before any query is built or run (the result does not
depend on the store); an in-set metric builds and executes the ranking
query, whose structure matches `StatsQueries.getStrongestPokemon`. -/
def strongestToolExecute (db : Db) (args : StatsCriteria) :
    Except String (List StrongestPokemonRow) :=
  match statColumnOf args.criteria with
  | none => Except.error "Invalid criteria"
  | some _ => Except.ok (getStrongestPokemon db args)

/-! ## Association-list lemmas

These characterize the two `Map`-building folds: a first-wins fold
retains, for each key, the value contributed by the first row binding it,
a last-wins fold the value contributed by the last such row; both keep
their key sets duplicate-free. -/

theorem optOr_none_left {α : Type} (b : Option α) : optOr none b = b := rfl

theorem optOr_none_right {α : Type} (a : Option α) : optOr a none = a := by
  cases a <;> rfl

theorem optOr_assoc {α : Type} (a b c : Option α) :
    optOr (optOr a b) c = optOr a (optOr b c) := by
  cases a <;> rfl

section AssocMapLemmas

variable {κ V Row : Type} [DecidableEq κ]

theorem lookupKey_append (k : κ) (m₁ m₂ : List (κ × V)) :
    lookupKey k (m₁ ++ m₂) = optOr (lookupKey k m₁) (lookupKey k m₂) := by
  induction m₁ with
  | nil => rfl
  | cons p rest ih =>
      obtain ⟨k', v⟩ := p
      by_cases h : k' = k <;> simp [lookupKey, h, ih, optOr]

theorem lookupKey_isSome_iff (k : κ) (m : List (κ × V)) :
    (lookupKey k m).isSome = true ↔ k ∈ m.map Prod.fst := by
  induction m with
  | nil => simp [lookupKey]
  | cons p rest ih =>
      obtain ⟨k', v⟩ := p
      by_cases h : k' = k
      · subst h; simp [lookupKey]
      · have h' : ¬ k = k' := fun he => h he.symm
        simp [lookupKey, h, ih, h']

theorem lookupKey_setIfAbsent (s k : κ) (v : V) (m : List (κ × V)) :
    lookupKey s (setIfAbsent k v m) =
      optOr (lookupKey s m) (if k = s then some v else none) := by
  unfold setIfAbsent
  by_cases hk : hasKey k m = true
  · rw [if_pos hk]
    cases hs : lookupKey s m with
    | some w => rfl
    | none =>
        by_cases hks : k = s
        · subst hks
          unfold hasKey at hk
          rw [hs] at hk
          simp at hk
        · simp [optOr, hks]
  · rw [if_neg hk, lookupKey_append]
    simp [lookupKey]

theorem lookupKey_setReplace (s k : κ) (v : V) (m : List (κ × V)) :
    lookupKey s (setReplace k v m) =
      if k = s then some v else lookupKey s m := by
  induction m with
  | nil => simp [setReplace, lookupKey]
  | cons p rest ih =>
      obtain ⟨k', v'⟩ := p
      by_cases h : k' = k
      · subst h
        by_cases hs : k' = s <;> simp [setReplace, lookupKey, hs]
      · by_cases hs : k' = s
        · subst hs
          have : ¬ k = k' := fun he => h he.symm
          simp [setReplace, h, lookupKey, this]
        · simp [setReplace, h, lookupKey, hs, ih]

variable (ent : Row → Option (κ × V))

theorem lookupKey_foldFirst (rows : List Row) :
    ∀ (acc : List (κ × V)) (s : κ),
      lookupKey s (foldFirst ent acc rows) =
        optOr (lookupKey s acc) (firstValue ent rows s) := by
  induction rows with
  | nil => intro acc s; simp [foldFirst, firstValue, optOr_none_right]
  | cons r rest ih =>
      intro acc s
      show lookupKey s (foldFirst ent _ rest) = _
      rw [ih]
      cases hent : ent r with
      | none =>
          simp [firstValue, stepValue, hent, optOr_none_left]
      | some p =>
          obtain ⟨k, v⟩ := p
          simp only [hent, lookupKey_setIfAbsent, optOr_assoc]
          simp [firstValue, stepValue, hent]

theorem lookupKey_foldLast (rows : List Row) :
    ∀ (acc : List (κ × V)) (s : κ),
      lookupKey s (foldLast ent acc rows) =
        optOr (lastValue ent rows s) (lookupKey s acc) := by
  induction rows with
  | nil => intro acc s; simp [foldLast, lastValue, optOr_none_left]
  | cons r rest ih =>
      intro acc s
      show lookupKey s (foldLast ent _ rest) = _
      rw [ih]
      cases hent : ent r with
      | none =>
          simp [lastValue, stepValue, hent, optOr_none_right]
      | some p =>
          obtain ⟨k, v⟩ := p
          simp only [lastValue, stepValue, hent, lookupKey_setReplace,
            optOr_assoc]
          congr 1
          by_cases hks : k = s <;> simp [hks, optOr]

theorem lookupKey_foldFirst_nil (rows : List Row) (s : κ) :
    lookupKey s (foldFirst ent [] rows) = firstValue ent rows s := by
  rw [lookupKey_foldFirst]; rfl

theorem lookupKey_foldLast_nil (rows : List Row) (s : κ) :
    lookupKey s (foldLast ent [] rows) = lastValue ent rows s := by
  rw [lookupKey_foldLast]
  simp [lookupKey, optOr_none_right]

theorem lookupKey_eq_none_of_not_mem {k : κ} {m : List (κ × V)}
    (h : k ∉ m.map Prod.fst) : lookupKey k m = none := by
  cases hl : lookupKey k m with
  | none => rfl
  | some v =>
      exact absurd ((lookupKey_isSome_iff k m).mp (by rw [hl]; rfl)) h

theorem keys_setIfAbsent (k : κ) (v : V) (m : List (κ × V)) :
    (setIfAbsent k v m).map Prod.fst =
      if hasKey k m then m.map Prod.fst else m.map Prod.fst ++ [k] := by
  unfold setIfAbsent
  by_cases hk : hasKey k m = true
  · rw [if_pos hk, if_pos hk]
  · rw [if_neg hk, if_neg hk, List.map_append]
    rfl

theorem keys_setReplace (k : κ) (v : V) (m : List (κ × V)) :
    (setReplace k v m).map Prod.fst =
      if hasKey k m then m.map Prod.fst else m.map Prod.fst ++ [k] := by
  induction m with
  | nil => simp [setReplace, hasKey, lookupKey]
  | cons p rest ih =>
      obtain ⟨k', v'⟩ := p
      by_cases h : k' = k
      · subst h
        simp [setReplace, hasKey, lookupKey]
      · have h' : ¬ k' = k := h
        simp only [setReplace, if_neg h', List.map_cons, ih]
        have hkk : hasKey k ((k', v') :: rest) = hasKey k rest := by
          simp [hasKey, lookupKey, h']
        rw [hkk]
        by_cases hr : hasKey k rest = true
        · rw [if_pos hr, if_pos hr]
        · rw [if_neg hr, if_neg hr]
          rfl

theorem nodupKeys_setIfAbsent {k : κ} {v : V} {m : List (κ × V)}
    (h : (m.map Prod.fst).Nodup) :
    ((setIfAbsent k v m).map Prod.fst).Nodup := by
  rw [keys_setIfAbsent]
  by_cases hk : hasKey k m = true
  · rw [if_pos hk]; exact h
  · rw [if_neg hk]
    have hkm : k ∉ m.map Prod.fst := by
      intro hmem
      exact hk ((lookupKey_isSome_iff k m).mpr hmem)
    simp [List.nodup_append, h, hkm]

theorem nodupKeys_setReplace {k : κ} {v : V} {m : List (κ × V)}
    (h : (m.map Prod.fst).Nodup) :
    ((setReplace k v m).map Prod.fst).Nodup := by
  rw [keys_setReplace]
  by_cases hk : hasKey k m = true
  · rw [if_pos hk]; exact h
  · rw [if_neg hk]
    have hkm : k ∉ m.map Prod.fst := by
      intro hmem
      exact hk ((lookupKey_isSome_iff k m).mpr hmem)
    simp [List.nodup_append, h, hkm]

theorem nodupKeys_foldFirst (ent : Row → Option (κ × V)) (rows : List Row) :
    ∀ (acc : List (κ × V)), (acc.map Prod.fst).Nodup →
      ((foldFirst ent acc rows).map Prod.fst).Nodup := by
  induction rows with
  | nil => intro acc h; exact h
  | cons r rest ih =>
      intro acc h
      show ((foldFirst ent _ rest).map Prod.fst).Nodup
      cases hent : ent r with
      | none => exact ih acc h
      | some p =>
          obtain ⟨k, v⟩ := p
          exact ih _ (nodupKeys_setIfAbsent h)

theorem nodupKeys_foldLast (ent : Row → Option (κ × V)) (rows : List Row) :
    ∀ (acc : List (κ × V)), (acc.map Prod.fst).Nodup →
      ((foldLast ent acc rows).map Prod.fst).Nodup := by
  induction rows with
  | nil => intro acc h; exact h
  | cons r rest ih =>
      intro acc h
      show ((foldLast ent _ rest).map Prod.fst).Nodup
      cases hent : ent r with
      | none => exact ih acc h
      | some p =>
          obtain ⟨k, v⟩ := p
          exact ih _ (nodupKeys_setReplace h)

theorem mem_setIfAbsent {p : κ × V} {k : κ} {v : V} {m : List (κ × V)}
    (h : p ∈ setIfAbsent k v m) : p = (k, v) ∨ p ∈ m := by
  unfold setIfAbsent at h
  by_cases hk : hasKey k m = true
  · rw [if_pos hk] at h; exact Or.inr h
  · rw [if_neg hk] at h
    rcases List.mem_append.mp h with h' | h'
    · exact Or.inr h'
    · simp at h'; exact Or.inl h'

theorem mem_setReplace {p : κ × V} {k : κ} {v : V} {m : List (κ × V)}
    (h : p ∈ setReplace k v m) : p = (k, v) ∨ p ∈ m := by
  induction m with
  | nil => simp [setReplace] at h; exact Or.inl h
  | cons q rest ih =>
      obtain ⟨k', v'⟩ := q
      by_cases hkk : k' = k
      · subst hkk
        simp only [setReplace, if_pos rfl] at h
        rcases List.mem_cons.mp h with h' | h'
        · exact Or.inl (by rw [h'])
        · exact Or.inr (List.mem_cons_of_mem _ h')
      · simp only [setReplace, if_neg hkk] at h
        rcases List.mem_cons.mp h with h' | h'
        · exact Or.inr (by rw [h']; exact List.mem_cons_self _ _)
        · rcases ih h' with h'' | h''
          · exact Or.inl h''
          · exact Or.inr (List.mem_cons_of_mem _ h'')

theorem mem_foldFirst {ent : Row → Option (κ × V)} {Q : κ × V → Prop}
    (hent : ∀ r p, ent r = some p → Q p) (rows : List Row) :
    ∀ (acc : List (κ × V)), (∀ p ∈ acc, Q p) →
      ∀ p ∈ foldFirst ent acc rows, Q p := by
  induction rows with
  | nil => intro acc hacc; exact hacc
  | cons r rest ih =>
      intro acc hacc
      show ∀ p ∈ foldFirst ent _ rest, Q p
      cases hr : ent r with
      | none => exact ih acc hacc
      | some q =>
          refine ih _ (fun p hp => ?_)
          rcases mem_setIfAbsent hp with h' | h'
          · subst h'; exact hent r _ hr
          · exact hacc _ h'

theorem mem_foldLast {ent : Row → Option (κ × V)} {Q : κ × V → Prop}
    (hent : ∀ r p, ent r = some p → Q p) (rows : List Row) :
    ∀ (acc : List (κ × V)), (∀ p ∈ acc, Q p) →
      ∀ p ∈ foldLast ent acc rows, Q p := by
  induction rows with
  | nil => intro acc hacc; exact hacc
  | cons r rest ih =>
      intro acc hacc
      show ∀ p ∈ foldLast ent _ rest, Q p
      cases hr : ent r with
      | none => exact ih acc hacc
      | some q =>
          refine ih _ (fun p hp => ?_)
          rcases mem_setReplace hp with h' | h'
          · subst h'; exact hent r _ hr
          · exact hacc _ h'

theorem lookupKey_of_mem {k : κ} {v : V} {m : List (κ × V)}
    (hnd : (m.map Prod.fst).Nodup) (hmem : (k, v) ∈ m) :
    lookupKey k m = some v := by
  induction m with
  | nil => cases hmem
  | cons q rest ih =>
      obtain ⟨k', v'⟩ := q
      rcases List.mem_cons.mp hmem with h' | h'
      · obtain ⟨h1, h2⟩ := Prod.mk.injEq .. ▸ h'.symm
        simp [lookupKey, h1.symm, h2]
      · have hk' : k' ≠ k := by
          intro he
          subst he
          have : k' ∈ rest.map Prod.fst :=
            List.mem_map.mpr ⟨(k', v), h', rfl⟩
          exact (List.nodup_cons.mp hnd).1 this
        simp only [lookupKey, if_neg hk']
        exact ih (List.nodup_cons.mp hnd).2 h'

theorem mem_of_lookupKey {k : κ} {v : V} {m : List (κ × V)}
    (h : lookupKey k m = some v) : (k, v) ∈ m := by
  induction m with
  | nil => cases h
  | cons q rest ih =>
      obtain ⟨k', v'⟩ := q
      by_cases hk : k' = k
      · subst hk
        rw [lookupKey, if_pos rfl] at h
        obtain rfl : v' = v := Option.some.injEq .. ▸ h
        exact List.mem_cons_self _ _
      · simp only [lookupKey, if_neg hk] at h
        exact List.mem_cons_of_mem _ (ih h)

end AssocMapLemmas

/-! ## Character and identifier lemmas -/

theorem lowerChar_isDigit (c : Char) : (lowerChar c).isDigit = c.isDigit := by
  unfold lowerChar
  split <;> rfl

theorem lowerChar_of_isDigit {c : Char} (h : c.isDigit = true) :
    lowerChar c = c := by
  unfold lowerChar
  split <;> first | rfl | (revert h; decide)

theorem data_lowerStr (s : String) : (lowerStr s).data = s.data.map lowerChar :=
  rfl

theorem isNumericId_lowerStr (s : String) :
    isNumericId (lowerStr s) = isNumericId s := by
  unfold isNumericId
  rw [data_lowerStr]
  congr 1
  · cases s.data <;> rfl
  · induction s.data with
    | nil => rfl
    | cons c cs ih => simp [List.all_cons, lowerChar_isDigit, ih]

theorem lowerStr_of_numeric {s : String} (h : isNumericId s = true) :
    lowerStr s = s := by
  unfold isNumericId at h
  obtain ⟨-, hall⟩ := Bool.and_eq_true .. ▸ h
  apply String.ext
  rw [data_lowerStr]
  have : ∀ c ∈ s.data, lowerChar c = c := by
    intro c hc
    exact lowerChar_of_isDigit (List.all_eq_true.mp hall c hc)
  rw [List.map_congr_left this]
  simp

/-! ## Filter and find lemmas for keyed lookups -/

theorem filter_beq_eq_find_toList {α β : Type} [DecidableEq β] (f : α → β)
    (b : β) : ∀ (l : List α), (l.map f).Nodup →
      l.filter (fun a => f a == b) = (l.find? (fun a => f a == b)).toList := by
  intro l
  induction l with
  | nil => intro _; rfl
  | cons a rest ih =>
      intro hnd
      by_cases hfa : f a = b
      · have hba : ((fun x => f x == b) a) = true := beq_iff_eq .. |>.mpr hfa
        rw [List.filter_cons_of_pos (p := fun x => f x == b) hba,
          List.find?_cons_of_pos (p := fun x => f x == b) rest hba]
        have hrest : rest.filter (fun x => f x == b) = [] := by
          rw [List.filter_eq_nil_iff]
          intro x hx hbx
          have : f x = b := beq_iff_eq .. |>.mp hbx
          have hmem : f a ∈ rest.map f := by
            rw [hfa, ← this]
            exact List.mem_map.mpr ⟨x, hx, rfl⟩
          exact (List.nodup_cons.mp hnd).1 hmem
        rw [hrest]
        rfl
      · have hba : ¬ ((fun x => f x == b) a) = true := by
          simp [hfa]
        rw [List.filter_cons_of_neg (p := fun x => f x == b) hba,
          List.find?_cons_of_neg (p := fun x => f x == b) rest hba]
        exact ih (List.nodup_cons.mp hnd).2

theorem find_beq_eq_some {α β : Type} [DecidableEq β] (f : α → β) (b : β)
    {a : α} : ∀ (l : List α), (l.map f).Nodup → a ∈ l → f a = b →
      l.find? (fun x => f x == b) = some a := by
  intro l
  induction l with
  | nil => intro _ hmem; cases hmem
  | cons c rest ih =>
      intro hnd hmem hfa
      rcases List.mem_cons.mp hmem with h' | h'
      · subst h'
        exact List.find?_cons_of_pos (p := fun x => f x == b) rest
          (beq_iff_eq .. |>.mpr hfa)
      · by_cases hfc : f c = b
        · exfalso
          have : f c ∈ rest.map f := by
            rw [hfc, ← hfa]
            exact List.mem_map.mpr ⟨a, h', rfl⟩
          exact (List.nodup_cons.mp hnd).1 this
        · rw [List.find?_cons_of_neg (p := fun x => f x == b) rest
            (by simp [hfc])]
          exact ih (List.nodup_cons.mp hnd).2 h' hfa

/-! ## First/last occurrence characterizations -/

section OccurrenceLemmas

variable {κ V Row : Type} [DecidableEq κ]

theorem stepValue_eq_some {ent : Row → Option (κ × V)} {r : Row} {s : κ}
    {v : V} : stepValue ent r s = some v ↔ ent r = some (s, v) := by
  unfold stepValue
  cases hent : ent r with
  | none => simp
  | some p =>
      obtain ⟨k, w⟩ := p
      by_cases hk : k = s
      · subst hk; simp
      · simp [hk]

theorem firstValue_isSome_iff (ent : Row → Option (κ × V)) (s : κ) :
    ∀ (rows : List Row), (firstValue ent rows s).isSome = true ↔
      ∃ r ∈ rows, ∃ v, ent r = some (s, v) := by
  intro rows
  induction rows with
  | nil => simp [firstValue]
  | cons r rest ih =>
      cases hstep : stepValue ent r s with
      | some v =>
          simp only [firstValue, hstep, optOr, Option.isSome_some, true_iff]
          exact ⟨r, List.mem_cons_self _ _, v, stepValue_eq_some.mp hstep⟩
      | none =>
          simp only [firstValue, hstep, optOr]
          rw [ih]
          constructor
          · rintro ⟨r', hr', v, hv⟩
            exact ⟨r', List.mem_cons_of_mem _ hr', v, hv⟩
          · rintro ⟨r', hr', v, hv⟩
            rcases List.mem_cons.mp hr' with h' | h'
            · subst h'
              exact absurd (stepValue_eq_some.mpr hv) (by simp [hstep])
            · exact ⟨r', h', v, hv⟩

theorem lastValue_isSome_iff (ent : Row → Option (κ × V)) (s : κ) :
    ∀ (rows : List Row), (lastValue ent rows s).isSome = true ↔
      ∃ r ∈ rows, ∃ v, ent r = some (s, v) := by
  intro rows
  induction rows with
  | nil => simp [lastValue]
  | cons r rest ih =>
      simp only [lastValue]
      cases hlast : lastValue ent rest s with
      | some v =>
          simp only [optOr, Option.isSome_some, true_iff]
          obtain ⟨r', hr', w, hw⟩ := ih.mp (by rw [hlast]; rfl)
          exact ⟨r', List.mem_cons_of_mem _ hr', w, hw⟩
      | none =>
          simp only [optOr]
          cases hstep : stepValue ent r s with
          | some v =>
              simp only [Option.isSome_some, true_iff]
              exact ⟨r, List.mem_cons_self _ _, v, stepValue_eq_some.mp hstep⟩
          | none =>
              constructor
              · intro h; exact absurd h (by simp)
              · rintro ⟨r', hr', v, hv⟩
                rcases List.mem_cons.mp hr' with h' | h'
                · subst h'
                  exact absurd (stepValue_eq_some.mpr hv) (by simp [hstep])
                · have hsome : (lastValue ent rest s).isSome = true :=
                    ih.mpr ⟨r', h', v, hv⟩
                  rw [hlast] at hsome
                  exact absurd hsome (by simp)

theorem firstValue_invariant {ent : Row → Option (κ × V)} {Q : κ → V → Prop}
    (hent : ∀ r k v, ent r = some (k, v) → Q k v) {s : κ} {v : V} :
    ∀ {rows : List Row}, firstValue ent rows s = some v → Q s v := by
  intro rows
  induction rows with
  | nil => intro h; cases h
  | cons r rest ih =>
      intro h
      simp only [firstValue] at h
      cases hstep : stepValue ent r s with
      | some w =>
          rw [hstep] at h
          have h' : some w = some v := h
          injection h' with h''
          subst h''
          exact hent r s w (stepValue_eq_some.mp hstep)
      | none =>
          rw [hstep] at h
          exact ih h

end OccurrenceLemmas

/-! ## Sortedness helpers -/

theorem sorted_insertionSortBy {α : Type} (f : α → Nat) (l : List α) :
    List.Pairwise (fun a b => f a ≤ f b)
      (List.insertionSort (fun a b => f a ≤ f b) l) := by
  haveI : IsTotal α (fun a b => f a ≤ f b) :=
    ⟨fun a b => Nat.le_total (f a) (f b)⟩
  haveI : IsTrans α (fun a b => f a ≤ f b) :=
    ⟨fun a b c hab hbc => Nat.le_trans hab hbc⟩
  exact List.sorted_insertionSort _ l

/-! ## Entry invariants: each map value records its own natural key -/

theorem statEntry_name {r : CompleteRow} {k : String} {v : StatRow}
    (h : statEntry r = some (k, v)) : v.stat_name = k := by
  unfold statEntry at h
  rcases hname : r.stat_name with _ | n <;> rw [hname] at h
  · simp at h
  · rcases hb : r.base_stat with _ | b <;> rw [hb] at h
    · simp at h
    · rcases he : r.effort with _ | e <;> rw [he] at h
      · simp at h
      · have h2 : (if n = "" then none
            else some (n, StatRow.mk n b e)) = some (k, v) := h
        by_cases hn : n = ""
        · rw [if_pos hn] at h2; cases h2
        · rw [if_neg hn] at h2
          injection h2 with h'
          obtain ⟨h1, h3⟩ := Prod.mk.injEq .. ▸ h'
          rw [← h3, ← h1]

theorem typeEntry_slot {r : CompleteRow} {k : Nat} {v : TypeOut}
    (h : PokemonDataExtractor.typeEntry r = some (k, v)) : v.slot = k := by
  unfold PokemonDataExtractor.typeEntry at h
  rcases hname : r.type_name with _ | n <;> rw [hname] at h
  · simp at h
  · rcases hs : r.type_slot with _ | s <;> rw [hs] at h
    · simp at h
    · have h2 : (if n = "" then none
          else some (s, TypeOut.mk n s)) = some (k, v) := h
      by_cases hn : n = ""
      · rw [if_pos hn] at h2; cases h2
      · rw [if_neg hn] at h2
        injection h2 with h'
        obtain ⟨h1, h3⟩ := Prod.mk.injEq .. ▸ h'
        rw [← h3, ← h1]

theorem abilityEntry_slot {r : CompleteRow} {k : Nat} {v : AbilityOut}
    (h : PokemonDataExtractor.abilityEntry r = some (k, v)) : v.slot = k := by
  unfold PokemonDataExtractor.abilityEntry at h
  rcases hname : r.ability_name with _ | n <;> rw [hname] at h
  · simp at h
  · rcases hs : r.ability_slot with _ | s <;> rw [hs] at h
    · simp at h
    · have h2 : (if n = "" then none
          else some (s, AbilityOut.mk n (r.is_hidden.getD false) s)) =
            some (k, v) := h
      by_cases hn : n = ""
      · rw [if_pos hn] at h2; cases h2
      · rw [if_neg hn] at h2
        injection h2 with h'
        obtain ⟨h1, h3⟩ := Prod.mk.injEq .. ▸ h'
        rw [← h3, ← h1]

/-! ## Characterization of the reconstruction functions -/

theorem extractStats_extractor_eq (rows : List CompleteRow) :
    PokemonDataExtractor.extractStats rows =
      statOrder.filterMap (fun n => firstValue statEntry rows n) := by
  show statOrder.filterMap
    (fun n => lookupKey n (foldFirst statEntry [] rows)) = _
  simp only [lookupKey_foldFirst_nil]

theorem extractStats_tool_eq (rows : List CompleteRow) :
    GetPokemonTool.extractStats rows =
      statOrder.filterMap (fun n => firstValue GetPokemonTool.statEntry rows n) := by
  show statOrder.filterMap
    (fun n => lookupKey n (foldFirst GetPokemonTool.statEntry [] rows)) = _
  simp only [lookupKey_foldFirst_nil]

theorem toolStatEntry_eq_statEntry : GetPokemonTool.statEntry = statEntry :=
  rfl

theorem extractTypes_mem_first {rows : List CompleteRow} {v : TypeOut}
    (h : v ∈ PokemonDataExtractor.extractTypes rows) :
    firstValue PokemonDataExtractor.typeEntry rows v.slot = some v := by
  have hperm := List.perm_insertionSort (fun a b : TypeOut => a.slot ≤ b.slot)
    ((foldFirst PokemonDataExtractor.typeEntry [] rows).map Prod.snd)
  have hv : v ∈ (foldFirst PokemonDataExtractor.typeEntry [] rows).map
      Prod.snd := hperm.mem_iff.mp h
  obtain ⟨p, hp, hps⟩ := List.mem_map.mp hv
  have hinv : ∀ q ∈ foldFirst PokemonDataExtractor.typeEntry [] rows,
      (q.2).slot = q.1 := by
    refine mem_foldFirst (fun r q hq => ?_) rows [] (by simp)
    obtain ⟨k, w⟩ := q
    exact typeEntry_slot hq
  have hkey : p.1 = v.slot := by
    rw [← hps]
    exact (hinv p hp).symm
  have hmem : (v.slot, v) ∈ foldFirst PokemonDataExtractor.typeEntry [] rows := by
    have : p = (v.slot, v) := by
      obtain ⟨k, w⟩ := p
      simp only [Prod.mk.injEq]
      exact ⟨hkey, hps⟩
    rwa [this] at hp
  rw [← lookupKey_foldFirst_nil]
  exact lookupKey_of_mem (nodupKeys_foldFirst _ rows [] (by simp)) hmem

theorem extractAbilities_mem_first {rows : List CompleteRow} {v : AbilityOut}
    (h : v ∈ PokemonDataExtractor.extractAbilities rows) :
    firstValue PokemonDataExtractor.abilityEntry rows v.slot = some v := by
  have hperm := List.perm_insertionSort
    (fun a b : AbilityOut => a.slot ≤ b.slot)
    ((foldFirst PokemonDataExtractor.abilityEntry [] rows).map Prod.snd)
  have hv : v ∈ (foldFirst PokemonDataExtractor.abilityEntry [] rows).map
      Prod.snd := hperm.mem_iff.mp h
  obtain ⟨p, hp, hps⟩ := List.mem_map.mp hv
  have hinv : ∀ q ∈ foldFirst PokemonDataExtractor.abilityEntry [] rows,
      (q.2).slot = q.1 := by
    refine mem_foldFirst (fun r q hq => ?_) rows [] (by simp)
    obtain ⟨k, w⟩ := q
    exact abilityEntry_slot hq
  have hkey : p.1 = v.slot := by
    rw [← hps]
    exact (hinv p hp).symm
  have hmem : (v.slot, v) ∈ foldFirst PokemonDataExtractor.abilityEntry []
      rows := by
    have : p = (v.slot, v) := by
      obtain ⟨k, w⟩ := p
      simp only [Prod.mk.injEq]
      exact ⟨hkey, hps⟩
    rwa [this] at hp
  rw [← lookupKey_foldFirst_nil]
  exact lookupKey_of_mem (nodupKeys_foldFirst _ rows [] (by simp)) hmem

theorem toolTypeEntries_mem_last {rows : List CompleteRow}
    {p : Nat × ToolTypeOut} (h : p ∈ GetPokemonTool.typeEntries rows) :
    lastValue GetPokemonTool.typeEntry rows p.1 = some p.2 := by
  have hperm := List.perm_insertionSort
    (fun a b : Nat × ToolTypeOut => a.1 ≤ b.1)
    (foldLast GetPokemonTool.typeEntry [] rows)
  have hm : p ∈ foldLast GetPokemonTool.typeEntry [] rows :=
    hperm.mem_iff.mp h
  rw [← lookupKey_foldLast_nil]
  obtain ⟨k, v⟩ := p
  exact lookupKey_of_mem (nodupKeys_foldLast _ rows [] (by simp)) hm

theorem toolAbilityEntries_mem_last {rows : List CompleteRow}
    {p : Nat × ToolAbilityOut} (h : p ∈ GetPokemonTool.abilityEntries rows) :
    lastValue GetPokemonTool.abilityEntry rows p.1 = some p.2 := by
  have hperm := List.perm_insertionSort
    (fun a b : Nat × ToolAbilityOut => a.1 ≤ b.1)
    (foldLast GetPokemonTool.abilityEntry [] rows)
  have hm : p ∈ foldLast GetPokemonTool.abilityEntry [] rows :=
    hperm.mem_iff.mp h
  rw [← lookupKey_foldLast_nil]
  obtain ⟨k, v⟩ := p
  exact lookupKey_of_mem (nodupKeys_foldLast _ rows [] (by simp)) hm

theorem extractTypes_slots_perm (rows : List CompleteRow) :
    ((PokemonDataExtractor.extractTypes rows).map TypeOut.slot).Perm
      ((foldFirst PokemonDataExtractor.typeEntry [] rows).map Prod.fst) := by
  have hperm := (List.perm_insertionSort
    (fun a b : TypeOut => a.slot ≤ b.slot)
    ((foldFirst PokemonDataExtractor.typeEntry [] rows).map Prod.snd)).map
      TypeOut.slot
  have heq : ((foldFirst PokemonDataExtractor.typeEntry [] rows).map
      Prod.snd).map TypeOut.slot =
      (foldFirst PokemonDataExtractor.typeEntry [] rows).map Prod.fst := by
    rw [List.map_map]
    refine List.map_congr_left (fun p hp => ?_)
    have hinv : ∀ q ∈ foldFirst PokemonDataExtractor.typeEntry [] rows,
        (q.2).slot = q.1 := by
      refine mem_foldFirst (fun r q hq => ?_) rows [] (by simp)
      obtain ⟨k, w⟩ := q
      exact typeEntry_slot hq
    exact hinv p hp
  exact heq ▸ hperm

theorem extractAbilities_slots_perm (rows : List CompleteRow) :
    ((PokemonDataExtractor.extractAbilities rows).map AbilityOut.slot).Perm
      ((foldFirst PokemonDataExtractor.abilityEntry [] rows).map Prod.fst) := by
  have hperm := (List.perm_insertionSort
    (fun a b : AbilityOut => a.slot ≤ b.slot)
    ((foldFirst PokemonDataExtractor.abilityEntry [] rows).map Prod.snd)).map
      AbilityOut.slot
  have heq : ((foldFirst PokemonDataExtractor.abilityEntry [] rows).map
      Prod.snd).map AbilityOut.slot =
      (foldFirst PokemonDataExtractor.abilityEntry [] rows).map Prod.fst := by
    rw [List.map_map]
    refine List.map_congr_left (fun p hp => ?_)
    have hinv : ∀ q ∈ foldFirst PokemonDataExtractor.abilityEntry [] rows,
        (q.2).slot = q.1 := by
      refine mem_foldFirst (fun r q hq => ?_) rows [] (by simp)
      obtain ⟨k, w⟩ := q
      exact abilityEntry_slot hq
    exact hinv p hp
  exact heq ▸ hperm

theorem filterMap_ite_some {α : Type} (p : α → Bool) (l : List α) :
    l.filterMap (fun a => if p a then some a else none) = l.filter p := by
  induction l with
  | nil => rfl
  | cons a rest ih =>
      cases hpa : p a <;>
        simp [List.filterMap_cons, List.filter_cons, hpa, ih]

theorem extractStats_names (rows : List CompleteRow) :
    (PokemonDataExtractor.extractStats rows).map StatRow.stat_name =
      statOrder.filter (fun n => (firstValue statEntry rows n).isSome) := by
  rw [extractStats_extractor_eq, List.map_filterMap]
  rw [show (fun n => (firstValue statEntry rows n).map StatRow.stat_name) =
      (fun n => if (firstValue statEntry rows n).isSome then some n
        else none) from ?_]
  · exact filterMap_ite_some _ _
  · funext n
    cases hf : firstValue statEntry rows n with
    | none => rfl
    | some v =>
        have : v.stat_name = n :=
          firstValue_invariant (fun r k w hw => statEntry_name hw) hf
        simp [this]

theorem foldFirst_cons_none {κ V Row : Type} [DecidableEq κ]
    {ent : Row → Option (κ × V)} {r : Row} (h : ent r = none)
    (acc : List (κ × V)) (rows : List Row) :
    foldFirst ent acc (r :: rows) = foldFirst ent acc rows := by
  show foldFirst ent _ rows = foldFirst ent acc rows
  rw [h]

theorem foldLast_cons_none {κ V Row : Type} [DecidableEq κ]
    {ent : Row → Option (κ × V)} {r : Row} (h : ent r = none)
    (acc : List (κ × V)) (rows : List Row) :
    foldLast ent acc (r :: rows) = foldLast ent acc rows := by
  show foldLast ent _ rows = foldLast ent acc rows
  rw [h]

theorem statEntry_none {r : CompleteRow} (h : r.stat_name = none) :
    statEntry r = none := by
  unfold statEntry
  rw [h]

theorem typeEntry_none {r : CompleteRow} (h : r.type_name = none) :
    PokemonDataExtractor.typeEntry r = none := by
  unfold PokemonDataExtractor.typeEntry
  rw [h]

theorem abilityEntry_none {r : CompleteRow} (h : r.ability_name = none) :
    PokemonDataExtractor.abilityEntry r = none := by
  unfold PokemonDataExtractor.abilityEntry
  rw [h]

theorem toolStatEntry_none {r : CompleteRow} (h : r.stat_name = none) :
    GetPokemonTool.statEntry r = none := by
  unfold GetPokemonTool.statEntry
  rw [h]

theorem toolTypeEntry_none {r : CompleteRow} (h : r.type_name = none) :
    GetPokemonTool.typeEntry r = none := by
  unfold GetPokemonTool.typeEntry
  rw [h]

theorem toolAbilityEntry_none {r : CompleteRow} (h : r.ability_name = none) :
    GetPokemonTool.abilityEntry r = none := by
  unfold GetPokemonTool.abilityEntry
  rw [h]

/-! ## Concrete fan-out data for the dedup properties -/

/-- Denormalized row combining one attribute, one tag and one trait of
the example entity (the shape every row of the complete join has). -/
def fanRow (st : String × Nat × Nat) (tp : String × Nat)
    (ab : String × Bool × Nat) : CompleteRow :=
  { id := 1, name := "bulbasaur",
    stat_name := some st.1, base_stat := some st.2.1, effort := some st.2.2,
    type_name := some tp.1, type_slot := some tp.2,
    ability_name := some ab.1, is_hidden := some ab.2.1,
    ability_slot := some ab.2.2 }

/-- The 24-row join result of an entity with 6 attributes, 2 tags and 2
traits: every attribute repeated with every tag/trait combination. -/
def fanoutRows : List CompleteRow :=
  ([("hp", 45, 0), ("attack", 49, 0), ("defense", 49, 0),
    ("special-attack", 65, 1), ("special-defense", 65, 0),
    ("speed", 45, 0)] : List (String × Nat × Nat)).flatMap (fun st =>
    ([("grass", 1), ("poison", 2)] : List (String × Nat)).flatMap (fun tp =>
      ([("overgrow", false, 1), ("chlorophyll", true, 2)] :
          List (String × Bool × Nat)).map (fun ab => fanRow st tp ab)))

/-- C2: the complete-join reconstruction deduplicates by natural key, not
by row count: the 24-row fan-out of a 6-attribute, 2-tag, 2-trait entity
reconstructs to exactly 6 attributes, 2 tags and 2 traits, and in general
each output collection carries exactly one element per distinct natural
key (canonical name for attributes, slot for tags and traits) observed
among the valid rows — no duplicates, no loss. -/
theorem c2_fanout_dedup_by_natural_key :
    (fanoutRows.length = 24 ∧
      PokemonDataExtractor.extractStats fanoutRows =
        [⟨"hp", 45, 0⟩, ⟨"attack", 49, 0⟩, ⟨"defense", 49, 0⟩,
         ⟨"special-attack", 65, 1⟩, ⟨"special-defense", 65, 0⟩,
         ⟨"speed", 45, 0⟩] ∧
      PokemonDataExtractor.extractTypes fanoutRows =
        [⟨"grass", 1⟩, ⟨"poison", 2⟩] ∧
      PokemonDataExtractor.extractAbilities fanoutRows =
        [⟨"overgrow", false, 1⟩, ⟨"chlorophyll", true, 2⟩]) ∧
    ∀ rows : List CompleteRow,
      (((PokemonDataExtractor.extractTypes rows).map TypeOut.slot).Nodup ∧
        ∀ s, s ∈ (PokemonDataExtractor.extractTypes rows).map TypeOut.slot ↔
          ∃ r ∈ rows, ∃ v, PokemonDataExtractor.typeEntry r = some (s, v)) ∧
      (((PokemonDataExtractor.extractAbilities rows).map
          AbilityOut.slot).Nodup ∧
        ∀ s, s ∈ (PokemonDataExtractor.extractAbilities rows).map
            AbilityOut.slot ↔
          ∃ r ∈ rows, ∃ v,
            PokemonDataExtractor.abilityEntry r = some (s, v)) ∧
      (((PokemonDataExtractor.extractStats rows).map
          StatRow.stat_name).Nodup ∧
        ∀ n, n ∈ (PokemonDataExtractor.extractStats rows).map
            StatRow.stat_name ↔
          n ∈ statOrder ∧ ∃ r ∈ rows, ∃ v, statEntry r = some (n, v)) := by
  constructor
  · exact ⟨by decide, by decide, by decide, by decide⟩
  · intro rows
    refine ⟨⟨?_, ?_⟩, ⟨?_, ?_⟩, ⟨?_, ?_⟩⟩
    · exact (extractTypes_slots_perm rows).nodup_iff.mpr
        (nodupKeys_foldFirst _ rows [] (by simp))
    · intro s
      rw [(extractTypes_slots_perm rows).mem_iff,
        ← lookupKey_isSome_iff, lookupKey_foldFirst_nil,
        firstValue_isSome_iff]
    · exact (extractAbilities_slots_perm rows).nodup_iff.mpr
        (nodupKeys_foldFirst _ rows [] (by simp))
    · intro s
      rw [(extractAbilities_slots_perm rows).mem_iff,
        ← lookupKey_isSome_iff, lookupKey_foldFirst_nil,
        firstValue_isSome_iff]
    · rw [extractStats_names]
      exact (by decide : statOrder.Nodup).filter _
    · intro n
      rw [extractStats_names, List.mem_filter, firstValue_isSome_iff]

/-- C3: both stat extractors keep only the first valid occurrence per
canonical attribute name and emit the attributes in the fixed canonical
order, omitting any canonical name never observed and ignoring any stat
name outside the canonical six: each extractor equals the per-name
first-occurrence scan over `statOrder`, and its emitted name sequence is
the canonical order restricted to the observed names. -/
theorem c3_stats_first_occurrence_canonical_order
    (rows : List CompleteRow) :
    PokemonDataExtractor.extractStats rows =
      statOrder.filterMap (fun n => firstValue statEntry rows n) ∧
    GetPokemonTool.extractStats rows =
      statOrder.filterMap
        (fun n => firstValue GetPokemonTool.statEntry rows n) ∧
    (PokemonDataExtractor.extractStats rows).map StatRow.stat_name =
      statOrder.filter (fun n => (firstValue statEntry rows n).isSome) := by
  exact ⟨extractStats_extractor_eq rows, extractStats_tool_eq rows,
    extractStats_names rows⟩

/-! ## C4: slot-keyed reconstruction -/

/-- Join row whose tag and trait both occupy slot 1 (first occurrence). -/
def dupSlotRow1 : CompleteRow :=
  { type_name := some "grass", type_slot := some 1,
    ability_name := some "overgrow", is_hidden := some false,
    ability_slot := some 1 }

/-- Later join row re-using slot 1 with different tag and trait names. -/
def dupSlotRow2 : CompleteRow :=
  { type_name := some "poison", type_slot := some 1,
    ability_name := some "chlorophyll", is_hidden := some true,
    ability_slot := some 1 }

/-- C4 counterexample: the `GetPokemonTool` reconstructions do not keep
the first occurrence per slot.  On two rows that bind slot 1 first to
grass/overgrow and then to poison/chlorophyll, the first occurrence per
slot is grass (resp. overgrow, not hidden), yet the tool emits the later
occurrence poison (resp. chlorophyll, hidden): its unconditional
`Map.set` lets later rows with an already-seen slot overwrite. -/
theorem c4_counterexample_tool_keeps_last :
    firstValue GetPokemonTool.typeEntry [dupSlotRow1, dupSlotRow2] 1 =
      some ⟨"grass"⟩ ∧
    GetPokemonTool.extractTypes [dupSlotRow1, dupSlotRow2] ≠ [⟨"grass"⟩] ∧
    GetPokemonTool.extractTypes [dupSlotRow1, dupSlotRow2] = [⟨"poison"⟩] ∧
    firstValue GetPokemonTool.abilityEntry [dupSlotRow1, dupSlotRow2] 1 =
      some ⟨"overgrow", false⟩ ∧
    GetPokemonTool.extractAbilities [dupSlotRow1, dupSlotRow2] ≠
      [⟨"overgrow", false⟩] ∧
    GetPokemonTool.extractAbilities [dupSlotRow1, dupSlotRow2] =
      [⟨"chlorophyll", true⟩] := by
  decide

/-- C4 (amended): the `PokemonDataExtractor` tag and trait
reconstructions keep the first occurrence per slot (later rows with an
already-seen slot are ignored, each trait carrying the secondary/hidden
flag of that first occurrence), while the `GetPokemonTool`
reconstructions keep the value of the last occurrence per slot; all four
emit their collections in ascending slot order, and rows whose relation
columns are null (left-join misses) contribute nothing and cause no
error. -/
theorem c4_slot_reconstruction (rows : List CompleteRow) :
    (∀ v ∈ PokemonDataExtractor.extractTypes rows,
      firstValue PokemonDataExtractor.typeEntry rows v.slot = some v) ∧
    List.Pairwise (fun a b => a.slot ≤ b.slot)
      (PokemonDataExtractor.extractTypes rows) ∧
    (∀ a ∈ PokemonDataExtractor.extractAbilities rows,
      firstValue PokemonDataExtractor.abilityEntry rows a.slot = some a) ∧
    List.Pairwise (fun a b => a.slot ≤ b.slot)
      (PokemonDataExtractor.extractAbilities rows) ∧
    (GetPokemonTool.extractTypes rows =
        (GetPokemonTool.typeEntries rows).map Prod.snd ∧
      ∀ p ∈ GetPokemonTool.typeEntries rows,
        lastValue GetPokemonTool.typeEntry rows p.1 = some p.2) ∧
    List.Pairwise (fun p q => p.1 ≤ q.1) (GetPokemonTool.typeEntries rows) ∧
    (GetPokemonTool.extractAbilities rows =
        (GetPokemonTool.abilityEntries rows).map Prod.snd ∧
      ∀ p ∈ GetPokemonTool.abilityEntries rows,
        lastValue GetPokemonTool.abilityEntry rows p.1 = some p.2) ∧
    List.Pairwise (fun p q => p.1 ≤ q.1)
      (GetPokemonTool.abilityEntries rows) ∧
    ∀ r : CompleteRow, r.stat_name = none → r.type_name = none →
      r.ability_name = none →
      (PokemonDataExtractor.extractStats (r :: rows) =
          PokemonDataExtractor.extractStats rows ∧
        PokemonDataExtractor.extractTypes (r :: rows) =
          PokemonDataExtractor.extractTypes rows ∧
        PokemonDataExtractor.extractAbilities (r :: rows) =
          PokemonDataExtractor.extractAbilities rows) ∧
      (GetPokemonTool.extractStats (r :: rows) =
          GetPokemonTool.extractStats rows ∧
        GetPokemonTool.extractTypes (r :: rows) =
          GetPokemonTool.extractTypes rows ∧
        GetPokemonTool.extractAbilities (r :: rows) =
          GetPokemonTool.extractAbilities rows) := by
  refine ⟨fun v hv => extractTypes_mem_first hv, ?_,
    fun a ha => extractAbilities_mem_first ha, ?_,
    ⟨rfl, fun p hp => toolTypeEntries_mem_last hp⟩, ?_,
    ⟨rfl, fun p hp => toolAbilityEntries_mem_last hp⟩, ?_, ?_⟩
  · exact sorted_insertionSortBy TypeOut.slot _
  · exact sorted_insertionSortBy AbilityOut.slot _
  · exact sorted_insertionSortBy Prod.fst _
  · exact sorted_insertionSortBy Prod.fst _
  · intro r hs ht ha
    constructor
    · refine ⟨?_, ?_, ?_⟩
      · show statOrder.filterMap
          (fun n => lookupKey n (foldFirst statEntry [] (r :: rows))) = _
        rw [foldFirst_cons_none (statEntry_none hs)]
        rfl
      · show List.insertionSort _
          ((foldFirst PokemonDataExtractor.typeEntry [] (r :: rows)).map
            Prod.snd) = _
        rw [foldFirst_cons_none (typeEntry_none ht)]
        rfl
      · show List.insertionSort _
          ((foldFirst PokemonDataExtractor.abilityEntry [] (r :: rows)).map
            Prod.snd) = _
        rw [foldFirst_cons_none (abilityEntry_none ha)]
        rfl
    · refine ⟨?_, ?_, ?_⟩
      · show statOrder.filterMap
          (fun n => lookupKey n
            (foldFirst GetPokemonTool.statEntry [] (r :: rows))) = _
        rw [foldFirst_cons_none (toolStatEntry_none hs)]
        rfl
      · show (List.insertionSort _
          (foldLast GetPokemonTool.typeEntry [] (r :: rows))).map
            Prod.snd = _
        rw [foldLast_cons_none (toolTypeEntry_none ht)]
        rfl
      · show (List.insertionSort _
          (foldLast GetPokemonTool.abilityEntry [] (r :: rows))).map
            Prod.snd = _
        rw [foldLast_cons_none (toolAbilityEntry_none ha)]
        rfl

/-- C4 witness: on the duplicate-slot rows, the value the extractor emits
at slot 1 is the first occurrence. -/
theorem c4_slot_reconstruction_witness :
    firstValue PokemonDataExtractor.typeEntry [dupSlotRow1, dupSlotRow2] 1 =
      some ⟨"grass", 1⟩ :=
  (c4_slot_reconstruction [dupSlotRow1, dupSlotRow2]).1 ⟨"grass", 1⟩
    (by decide)

/-! ## Sample store: bulbasaur with its two tags and six attributes -/

/-- Example store used to witness and to refute concrete behaviors. -/
def sampleDb : Db :=
  { pokemon := [⟨1, "bulbasaur", 7, 69, 64, 1, "species", "sprite"⟩],
    stats := [⟨1, "hp", 45, 0⟩, ⟨1, "attack", 49, 0⟩, ⟨1, "defense", 49, 0⟩,
              ⟨1, "special-attack", 65, 1⟩, ⟨1, "special-defense", 65, 0⟩,
              ⟨1, "speed", 45, 0⟩],
    types := [⟨12, "grass"⟩, ⟨4, "poison"⟩],
    pokemon_types := [⟨1, 12, 1⟩, ⟨1, 4, 2⟩] }

/-! ## C5: the two special ranking tokens -/

theorem mem_statOrder_ne_special {n : String} (h : n ∈ statOrder) :
    (n == "sp-attack") = false ∧ (n == "sp-defense") = false := by
  simp only [statOrder, List.mem_cons, List.not_mem_nil, or_false] at h
  rcases h with rfl | rfl | rfl | rfl | rfl | rfl <;> decide

/-- C5: for the two special per-attribute ranking metrics the bound stat
name is the token with its (single, first) underscore replaced by a
hyphen — `sp-attack` / `sp-defense` — which is not one of the stored
canonical attribute names; consequently, on every store whose stat names
are all canonical, ranking by either metric returns an empty result. -/
theorem c5_special_ranking_tokens_match_nothing (db : Db)
    (c : StatsCriteria) (hcanon : ∀ s ∈ db.stats, s.stat_name ∈ statOrder)
    (hc : c.criteria = "sp_attack" ∨ c.criteria = "sp_defense") :
    replaceFirstUnderscore "sp_attack" = "sp-attack" ∧
    replaceFirstUnderscore "sp_defense" = "sp-defense" ∧
    "sp-attack" ∉ statOrder ∧ "sp-defense" ∉ statOrder ∧
    (buildStrongestParams c).head? =
      some (SqlValue.str (replaceFirstUnderscore c.criteria)) ∧
    getStrongestPokemon db c = [] := by
  have hnt : (c.criteria == "total_stats") = false := by
    rcases hc with h | h <;> rw [h] <;> decide
  have hne : ∀ s ∈ db.stats,
      (s.stat_name == replaceFirstUnderscore c.criteria) = false := by
    intro s hs
    rcases hc with h | h <;> rw [h]
    · exact (mem_statOrder_ne_special (hcanon s hs)).1
    · exact (mem_statOrder_ne_special (hcanon s hs)).2
  have hnt' : ¬ ((c.criteria == "total_stats") = true) := by
    rw [hnt]; exact Bool.false_ne_true
  refine ⟨by decide, by decide, by decide, by decide, ?_, ?_⟩
  · unfold buildStrongestParams
    rw [if_neg hnt']
    rfl
  · have hrows : strongestRows db c = [] := by
      unfold strongestRows
      rw [if_neg hnt', List.flatMap_eq_nil_iff]
      intro p hp
      by_cases hg : genOk p (strongestActiveGen c) = true
      · rw [if_pos hg]
        have hfil : db.stats.filter (fun s =>
            s.pokemon_id == p.id &&
            s.stat_name == replaceFirstUnderscore c.criteria) = [] := by
          rw [List.filter_eq_nil_iff]
          intro s hs
          simp [hne s hs]
        rw [hfil]
        rfl
      · rw [if_neg hg]
    unfold getStrongestPokemon
    rw [hrows]
    simp

/-- C5 witness: ranking the sample store by `sp_attack` yields nothing,
although the entity's special-attack attribute is present. -/
theorem c5_special_ranking_witness :
    getStrongestPokemon sampleDb { criteria := "sp_attack" } = [] :=
  (c5_special_ranking_tokens_match_nothing sampleDb
    { criteria := "sp_attack" } (by decide) (Or.inl rfl)).2.2.2.2.2

/-! ## C6: metric validation of the ranking tool -/

theorem statColumnOf_eq_none {cr : String} (h : cr ∉ allowedCriteria) :
    statColumnOf cr = none := by
  have h1 : cr ≠ "total_stats" :=
    fun he => h (he ▸ (by decide : "total_stats" ∈ allowedCriteria))
  have h2 : cr ≠ "attack" :=
    fun he => h (he ▸ (by decide : "attack" ∈ allowedCriteria))
  have h3 : cr ≠ "defense" :=
    fun he => h (he ▸ (by decide : "defense" ∈ allowedCriteria))
  have h4 : cr ≠ "hp" :=
    fun he => h (he ▸ (by decide : "hp" ∈ allowedCriteria))
  have h5 : cr ≠ "speed" :=
    fun he => h (he ▸ (by decide : "speed" ∈ allowedCriteria))
  have h6 : cr ≠ "sp_attack" :=
    fun he => h (he ▸ (by decide : "sp_attack" ∈ allowedCriteria))
  have h7 : cr ≠ "sp_defense" :=
    fun he => h (he ▸ (by decide : "sp_defense" ∈ allowedCriteria))
  unfold statColumnOf
  rw [if_neg (by simp [h1]), if_neg (by simp [h2, h3, h4, h5, h6, h7])]

/-- C6: a metric token outside the allowed set makes the ranking tool
fail with the `Invalid criteria` error before any query is built — the
result is the same for every store, i.e. the store is never consulted —
while every token inside the set produces a successful (non-error)
result. -/
theorem c6_invalid_criteria_rejected_before_query (db : Db)
    (args : StatsCriteria) :
    (args.criteria ∉ allowedCriteria →
      strongestToolExecute db args = Except.error "Invalid criteria" ∧
      strongestToolExecute db args = strongestToolExecute {} args) ∧
    (args.criteria ∈ allowedCriteria →
      ∃ r, strongestToolExecute db args = Except.ok r) := by
  constructor
  · intro h
    have hn := statColumnOf_eq_none h
    constructor
    · unfold strongestToolExecute
      rw [hn]
    · unfold strongestToolExecute
      rw [hn]
  · intro h
    simp only [allowedCriteria, List.mem_cons, List.not_mem_nil,
      or_false] at h
    unfold strongestToolExecute
    rcases h with h | h | h | h | h | h | h <;> rw [h] <;>
      exact ⟨_, rfl⟩

/-- C6 witness: the token `banana` is rejected identically on the sample
store and on the empty store, and the token `attack` succeeds. -/
theorem c6_invalid_criteria_witness :
    (strongestToolExecute sampleDb { criteria := "banana" } =
      Except.error "Invalid criteria") ∧
    ∃ r, strongestToolExecute sampleDb { criteria := "attack" } =
      Except.ok r :=
  ⟨((c6_invalid_criteria_rejected_before_query sampleDb
      { criteria := "banana" }).1 (by decide)).1,
    (c6_invalid_criteria_rejected_before_query sampleDb
      { criteria := "attack" }).2 (by decide)⟩

/-! ## Numeric-affinity lemmas -/

theorem takeWhile_eq_self_of_all {α : Type} {p : α → Bool} :
    ∀ {l : List α}, (∀ a ∈ l, p a = true) → l.takeWhile p = l := by
  intro l
  induction l with
  | nil => intro _; rfl
  | cons a rest ih =>
      intro h
      rw [List.takeWhile_cons, if_pos (h a (List.mem_cons_self _ _)),
        ih (fun b hb => h b (List.mem_cons_of_mem _ hb))]

theorem dropWhile_eq_nil_of_all {α : Type} {p : α → Bool} :
    ∀ {l : List α}, (∀ a ∈ l, p a = true) → l.dropWhile p = [] := by
  intro l
  induction l with
  | nil => intro _; rfl
  | cons a rest ih =>
      intro h
      rw [List.dropWhile_cons, if_pos (h a (List.mem_cons_self _ _))]
      exact ih (fun b hb => h b (List.mem_cons_of_mem _ hb))

theorem dropWhile_cons_of_neg {α : Type} {p : α → Bool} {c : α}
    {cs : List α} (h : p c = false) : (c :: cs).dropWhile p = c :: cs := by
  rw [List.dropWhile_cons, if_neg (by rw [h]; exact Bool.false_ne_true)]

theorem isDigit_not_sqliteSpace {c : Char} (h : c.isDigit = true) :
    isSqliteSpace c = false := by
  have h1 : (c == ' ') = false := beq_eq_false_iff_ne.mpr
    (fun he => absurd (he ▸ h) (by decide))
  have h2 : (c == '\t') = false := beq_eq_false_iff_ne.mpr
    (fun he => absurd (he ▸ h) (by decide))
  have h3 : (c == '\n') = false := beq_eq_false_iff_ne.mpr
    (fun he => absurd (he ▸ h) (by decide))
  have h4 : (c == '\x0b') = false := beq_eq_false_iff_ne.mpr
    (fun he => absurd (he ▸ h) (by decide))
  have h5 : (c == '\x0c') = false := beq_eq_false_iff_ne.mpr
    (fun he => absurd (he ▸ h) (by decide))
  have h6 : (c == '\r') = false := beq_eq_false_iff_ne.mpr
    (fun he => absurd (he ▸ h) (by decide))
  unfold isSqliteSpace
  rw [h1, h2, h3, h4, h5, h6]
  rfl

theorem isDigit_ne_plus {c : Char} (h : c.isDigit = true) : ¬ c = '+' :=
  fun he => absurd (he ▸ h) (by decide)

theorem isDigit_ne_minus {c : Char} (h : c.isDigit = true) : ¬ c = '-' :=
  fun he => absurd (he ▸ h) (by decide)

theorem sqliteSign_of_digit {c : Char} {cs : List Char}
    (h : c.isDigit = true) : sqliteSign (c :: cs) = (1, c :: cs) := by
  show (if c = '+' then ((1 : Int), cs)
    else if c = '-' then (-1, cs) else (1, c :: cs)) = (1, c :: cs)
  rw [if_neg (isDigit_ne_plus h), if_neg (isDigit_ne_minus h)]

theorem sqliteNumParseRest_digits {ds : List Char} (hne : ds ≠ []) :
    sqliteNumParseRest 1 ds [] [] = some ((natOfDigits ds : Int), 1) := by
  unfold sqliteNumParseRest
  rw [if_neg (by
    rw [List.isEmpty_eq_false.mpr hne]
    exact Bool.false_ne_true)]
  show (if (([] : List Char).dropWhile isSqliteSpace).isEmpty = true then
    some (affinityVal 1 ds [] 0) else none) = _
  rw [if_pos (show (([] : List Char).dropWhile isSqliteSpace).isEmpty = true
    from rfl)]
  unfold affinityVal
  rw [if_pos (le_refl (0 : Int))]
  show some ((1 * ((natOfDigits ds * 10 ^ 0 + natOfDigits [] : Nat) : Int)) *
    10 ^ (0 : Int).toNat, (10 : Nat) ^ 0) = _
  norm_num [natOfDigits]

theorem sqliteNumAffinity_digits {s : String}
    (h : isNumericId s = true) :
    sqliteNumAffinity s = some ((digitsToNat s : Int), 1) := by
  unfold isNumericId at h
  obtain ⟨hne', hall'⟩ := Bool.and_eq_true .. ▸ h
  have hne : s.data ≠ [] := by
    intro he
    rw [he] at hne'
    exact absurd hne' (by decide)
  have hall : ∀ c ∈ s.data, c.isDigit = true := List.all_eq_true.mp hall'
  obtain ⟨c, cs, hd⟩ := List.exists_cons_of_ne_nil hne
  have hcdig : c.isDigit = true := hall c (by rw [hd]; exact List.mem_cons_self _ _)
  have hdrop : s.data.dropWhile isSqliteSpace = s.data := by
    rw [hd]
    exact dropWhile_cons_of_neg (isDigit_not_sqliteSpace hcdig)
  have hsign : sqliteSign s.data = (1, s.data) := by
    rw [hd]
    exact sqliteSign_of_digit hcdig
  have htake : s.data.takeWhile Char.isDigit = s.data :=
    takeWhile_eq_self_of_all hall
  have hdropD : s.data.dropWhile Char.isDigit = [] :=
    dropWhile_eq_nil_of_all hall
  unfold sqliteNumAffinity
  rw [hdrop, hsign]
  show sqliteNumParseMantissa 1 (s.data.takeWhile Char.isDigit)
    (s.data.dropWhile Char.isDigit) = _
  rw [htake, hdropD]
  show sqliteNumParseRest 1 s.data [] [] = _
  rw [sqliteNumParseRest_digits hne]
  rfl

theorem sqliteIdMatches_digits {s : String} (h : isNumericId s = true)
    (i : Nat) : sqliteIdMatches i s = (i == digitsToNat s) := by
  unfold sqliteIdMatches
  rw [sqliteNumAffinity_digits h]
  show ((digitsToNat s : Int) == (i : Int) * ((1 : Nat) : Int)) = _
  by_cases he : i = digitsToNat s
  · subst he
    simp
  · have h1 : (i == digitsToNat s) = false := beq_eq_false_iff_ne.mpr he
    have h2 : ¬ ((digitsToNat s : Int) = (i : Int) * ((1 : Nat) : Int)) := by
      push_cast
      omega
    rw [h1]
    exact beq_eq_false_iff_ne.mpr h2

theorem sqliteIdMatches_of_affinity_none {s : String}
    (h : sqliteNumAffinity s = none) (i : Nat) :
    sqliteIdMatches i s = false := by
  unfold sqliteIdMatches
  rw [h]

/-! ## C7 and C8: identifier resolution -/

/-- Store in which one entity's name is the decimal numeral of another
entity's id. -/
def digitNameDb : Db :=
  { pokemon := [⟨1, "25", 0, 0, 0, 1, "", ""⟩,
                ⟨25, "pikachu", 4, 60, 112, 1, "", ""⟩] }

/-- C7 counterexample: the two operations disagree in two ways.  On a
store containing an entity named `"25"` and an entity with id 25, the
OR-predicate of `getPokemonComplete` selects both entities for the
identifier `"25"`, while `getPokemon "25"` resolves only the id lookup.
And for the identifier `"25.0"` — a well-formed numeric literal that is
not all digits — the predicate's id disjunct converts it under numeric
affinity and matches id 25, while `getPokemon` performs a name lookup
and finds nothing. -/
theorem c7_counterexample_or_predicate_selects_both :
    completeSelects digitNameDb "25" ≠
      (getPokemon digitNameDb "25").toList ∧
    completeSelects digitNameDb "25.0" ≠
      (getPokemon digitNameDb "25.0").toList ∧
    completeSelects digitNameDb "25.0" =
      [⟨25, "pikachu", 4, 60, 112, 1, "", ""⟩] ∧
    getPokemon digitNameDb "25.0" = none := by
  refine ⟨by decide, by decide, by decide, by decide⟩

/-- C7 (amended): provided entity ids are pairwise distinct, lowercased
names are pairwise distinct, no entity's name consists only of decimal
digits, and the identifier is either an all-digit numeral or a string
that numeric affinity does not convert (not a well-formed numeric
literal), the entity selected by `getPokemonComplete`'s id-or-name
predicate is exactly the entity that `getPokemon` resolves.  (For a
numeric literal in any other form, such as `25.0` or `+25`, the two
operations can disagree — see the counterexample.) -/
theorem c7_complete_filter_agrees_with_getPokemon (db : Db)
    (hids : (db.pokemon.map PokemonRow.id).Nodup)
    (hnames : (db.pokemon.map (fun p => lowerStr p.name)).Nodup)
    (hdigits : ∀ p ∈ db.pokemon, isNumericId p.name = false)
    (identifier : String)
    (hident : isNumericId identifier = true ∨
      sqliteNumAffinity identifier = none) :
    completeSelects db identifier = (getPokemon db identifier).toList := by
  unfold completeSelects getPokemon getPokemonById getPokemonByName
  rcases hident with hnum | hnone
  · rw [if_pos hnum]
    have hcong : ∀ p ∈ db.pokemon,
        completeWhere identifier p = (p.id == digitsToNat identifier) := by
      intro p hp
      unfold completeWhere
      rw [sqliteIdMatches_digits hnum]
      have hname : (lowerStr p.name == lowerStr identifier) = false := by
        cases hb : lowerStr p.name == lowerStr identifier
        · rfl
        · exfalso
          have heq : lowerStr p.name = lowerStr identifier :=
            (beq_iff_eq ..).mp hb
          have hlid : lowerStr identifier = identifier :=
            lowerStr_of_numeric hnum
          have hthis : isNumericId (lowerStr p.name) = true := by
            rw [heq, hlid]; exact hnum
          rw [isNumericId_lowerStr, hdigits p hp] at hthis
          exact Bool.false_ne_true hthis
      rw [hname, Bool.or_false]
    rw [List.filter_congr hcong]
    exact filter_beq_eq_find_toList PokemonRow.id (digitsToNat identifier)
      db.pokemon hids
  · have hnum' : isNumericId identifier = false := by
      cases h : isNumericId identifier
      · rfl
      · have hsome := sqliteNumAffinity_digits h
        rw [hnone] at hsome
        cases hsome
    have hnumneg : ¬ isNumericId identifier = true := by
      rw [hnum']; exact Bool.false_ne_true
    rw [if_neg hnumneg]
    have hcong : ∀ p ∈ db.pokemon, completeWhere identifier p =
        (lowerStr p.name == lowerStr identifier) := by
      intro p hp
      unfold completeWhere
      rw [sqliteIdMatches_of_affinity_none hnone, Bool.false_or]
    rw [List.filter_congr hcong]
    exact filter_beq_eq_find_toList (fun p => lowerStr p.name)
      (lowerStr identifier) db.pokemon hnames

/-- C7 witness: on the sample store the complete-query predicate and
`getPokemon` agree for the all-digit identifier `1` and for the
non-numeric identifier `bulbasaur`. -/
theorem c7_complete_filter_witness :
    completeSelects sampleDb "1" = (getPokemon sampleDb "1").toList ∧
    completeSelects sampleDb "bulbasaur" =
      (getPokemon sampleDb "bulbasaur").toList :=
  ⟨c7_complete_filter_agrees_with_getPokemon sampleDb (by decide) (by decide)
      (by decide) "1" (Or.inl (by decide)),
    c7_complete_filter_agrees_with_getPokemon sampleDb (by decide)
      (by decide) (by decide) "bulbasaur" (Or.inr (by decide))⟩

/-- C8: `getPokemon` resolves an all-digit identifier by exact id lookup
and any other identifier by case-insensitive exact-name lookup, so the
identifiers `25`, `pikachu` and `PIKACHU` all resolve to the entity with
id 25 named `pikachu`; when nothing matches, the result is the empty
option, not an exception. -/
theorem c8_identifier_equivalence (db : Db) (e : PokemonRow)
    (hmem : e ∈ db.pokemon)
    (hids : (db.pokemon.map PokemonRow.id).Nodup)
    (hnames : (db.pokemon.map (fun p => lowerStr p.name)).Nodup)
    (hid : e.id = 25) (hname : e.name = "pikachu") :
    getPokemon db "25" = some e ∧
    getPokemon db "pikachu" = some e ∧
    getPokemon db "PIKACHU" = some e ∧
    ∀ identifier, (∀ p ∈ db.pokemon,
        (p.id == digitsToNat identifier) = false ∧
        (lowerStr p.name == lowerStr identifier) = false) →
      getPokemon db identifier = none := by
  refine ⟨?_, ?_, ?_, ?_⟩
  · unfold getPokemon getPokemonById
    rw [if_pos (by decide : isNumericId "25" = true)]
    exact find_beq_eq_some PokemonRow.id (digitsToNat "25") db.pokemon hids
      hmem (by rw [hid]; decide)
  · unfold getPokemon getPokemonByName
    rw [if_neg (by decide : ¬ isNumericId "pikachu" = true)]
    exact find_beq_eq_some (fun p => lowerStr p.name) (lowerStr "pikachu")
      db.pokemon hnames hmem
      (by show lowerStr e.name = lowerStr "pikachu"; rw [hname])
  · unfold getPokemon getPokemonByName
    rw [if_neg (by decide : ¬ isNumericId "PIKACHU" = true)]
    exact find_beq_eq_some (fun p => lowerStr p.name) (lowerStr "PIKACHU")
      db.pokemon hnames hmem
      (by show lowerStr e.name = lowerStr "PIKACHU"; rw [hname]; decide)
  · intro identifier h
    unfold getPokemon getPokemonById getPokemonByName
    by_cases hni : isNumericId identifier = true
    · rw [if_pos hni]
      exact List.find?_eq_none.mpr (fun p hp => by
        rw [(h p hp).1]; exact Bool.false_ne_true)
    · rw [if_neg hni]
      exact List.find?_eq_none.mpr (fun p hp => by
        rw [(h p hp).2]; exact Bool.false_ne_true)

/-- Store holding only the entity with id 25 named `pikachu`. -/
def pikachuDb : Db :=
  { pokemon := [⟨25, "pikachu", 4, 60, 112, 1, "", ""⟩] }

/-- C8 witness: the three identifier spellings agree on the concrete
store, and a missing identifier resolves to the empty option. -/
theorem c8_identifier_equivalence_witness :
    getPokemon pikachuDb "25" =
      some ⟨25, "pikachu", 4, 60, 112, 1, "", ""⟩ ∧
    getPokemon pikachuDb "PIKACHU" =
      some ⟨25, "pikachu", 4, 60, 112, 1, "", ""⟩ ∧
    getPokemon pikachuDb "mew" = none := by
  refine ⟨?_, ?_, ?_⟩
  · exact (c8_identifier_equivalence pikachuDb
      ⟨25, "pikachu", 4, 60, 112, 1, "", ""⟩ (by decide) (by decide)
      (by decide) rfl rfl).1
  · exact (c8_identifier_equivalence pikachuDb
      ⟨25, "pikachu", 4, 60, 112, 1, "", ""⟩ (by decide) (by decide)
      (by decide) rfl rfl).2.2.1
  · exact (c8_identifier_equivalence pikachuDb
      ⟨25, "pikachu", 4, 60, 112, 1, "", ""⟩ (by decide) (by decide)
      (by decide) rfl rfl).2.2.2 "mew" (by decide)

/-! ## C9: the empty search filter -/

/-- Store holding one entity that has no tag rows. -/
def taglessDb : Db :=
  { pokemon := [⟨7, "squirtle", 5, 90, 63, 1, "", ""⟩] }

/-- C9 counterexample: `search({})` does not return every entity in the
store — an entity with no tag rows is dropped by the inner display join,
so the no-filter search of a one-entity store returns nothing. -/
theorem c9_counterexample_tagless_entity_dropped :
    ¬ ((searchPokemon taglessDb {}).map SearchResultRow.id =
      ((List.insertionSort (fun a b : PokemonRow => a.id ≤ b.id)
        taglessDb.pokemon).map PokemonRow.id).take 20) := by
  decide

/-- C9 (amended): search with no filters returns, ordered ascending by
id and cut to the default limit 20, exactly the entities that have at
least one tag (the display join is an inner join, so tag-less entities
are omitted), each row carrying the entity's id, name, generation and
the comma-joined string of its tag names. -/
theorem c9_empty_filter_returns_tagged_entities (db : Db) :
    searchPokemon db {} =
      (((List.insertionSort (fun a b : PokemonRow => a.id ≤ b.id)
          db.pokemon).filter (fun p => !(typeNamesOf db p.id).isEmpty)).map
        (fun p => SearchResultRow.mk p.id p.name p.generation
          (commaJoin (typeNamesOf db p.id)))).take 20 ∧
    List.Pairwise (fun a b => a.id ≤ b.id) (searchPokemon db {}) := by
  constructor
  · rfl
  · show List.Pairwise (fun a b => a.id ≤ b.id)
      ((((List.insertionSort (fun a b : PokemonRow => a.id ≤ b.id)
          db.pokemon).filter (fun p => !(typeNamesOf db p.id).isEmpty)).map
        (fun p => SearchResultRow.mk p.id p.name p.generation
          (commaJoin (typeNamesOf db p.id)))).take 20)
    refine List.Pairwise.sublist (List.take_sublist _ _) ?_
    refine List.pairwise_map.mpr ?_
    exact (sorted_insertionSortBy PokemonRow.id db.pokemon).filter _

/-! ## C10: zero-valued filter fields are falsy -/

/-- C10: at the search interface a zero field behaves as absent or
degenerate, never as a validated value: a zero generation or minimum
total contributes no predicate and no parameter; a caller-supplied limit
of zero is not replaced by the default 20 but bound as-is, so the search
returns nothing; and the validator accepts all three zeroes because its
range checks are guarded by truthiness. -/
theorem c10_zero_fields_falsy :
    (∀ f : PokemonSearchFilter,
      buildSearchQuery { f with generation := some 0 } =
        buildSearchQuery { f with generation := none } ∧
      buildSearchParams { f with generation := some 0 } =
        buildSearchParams { f with generation := none } ∧
      buildSearchQuery { f with minStat := some 0 } =
        buildSearchQuery { f with minStat := none } ∧
      buildSearchParams { f with minStat := some 0 } =
        buildSearchParams { f with minStat := none }) ∧
    (∀ t g m, (buildSearchParams ⟨t, g, m, some 0⟩).getLast? =
      some (SqlValue.num 0)) ∧
    (∀ (db : Db) t g m, searchPokemon db ⟨t, g, m, some 0⟩ = []) ∧
    validateSearchFilter ⟨none, some 0, some 0, some 0⟩ = ⟨true, []⟩ := by
  refine ⟨fun f => ⟨rfl, rfl, rfl, rfl⟩, ?_, ?_, by decide⟩
  · intro t g m
    exact List.getLast?_concat _
  · intro db t g m
    cases hT : truthyStr t <;> cases hG : truthyNat g <;>
      cases hM : truthyNat m <;>
      simp [searchPokemon, execSearch, buildSearchQuery, buildSearchParams,
        hT, hG, hM, sqlLimit]

/-! ## C1: placeholder-parameter alignment of the search builder -/

/-- C1 evaluation: combining the tag filter with the minimum-total
filter breaks the positional alignment between the SQL text's
placeholders (minStat's, inside the join appended before the WHERE
clause, comes textually first) and the parameter array (which pushes
type, then generation, then minStat): each filter alone matches the
sample entity, but the combination binds the tag name to the numeric
threshold placeholder and returns no rows. -/
theorem c1_minstat_placeholder_misalignment :
    buildSearchQuery { type := some "grass", minStat := some 300 } =
      ⟨true, false, true⟩ ∧
    buildSearchParams { type := some "grass", minStat := some 300 } =
      [SqlValue.str "grass", SqlValue.num 300, SqlValue.num 20] ∧
    existsTypeLower sampleDb 1 (SqlValue.str "grass") = true ∧
    hasStatsRow sampleDb 1 = true ∧
    sqliteGeNum (sumStats sampleDb 1) (SqlValue.num 300) = true ∧
    searchPokemon sampleDb { type := some "grass" } =
      [⟨1, "bulbasaur", 1, "grass,poison"⟩] ∧
    searchPokemon sampleDb { minStat := some 300 } =
      [⟨1, "bulbasaur", 1, "grass,poison"⟩] ∧
    searchPokemon sampleDb { type := some "grass", minStat := some 300 } =
      [] := by
  decide
